import Mathlib

/-!
Verification development for the parametric pseudoflow minimum-cut solver
(`src/pseudoflow/core/libhpf.c` and the command-line loader `src/c/hpf.c`).

The C code is shallowly embedded: doubles become `ℚ`, pointer structures
become index-based records over `List`, the global mutable state becomes an
explicit state record threaded through the functions, loops whose
termination is not structural take an explicit fuel argument and return
`Option` (with `none` for fuel exhaustion or for paths on which the C
program would abort or crash).  Definitions keep the source's names where
possible; intrusive linked lists (strong-root buckets, child lists) are
modelled as explicit `List ℕ` queues holding node indices, which preserves
the FIFO enqueue/dequeue order of the C lists.
-/

namespace HPF

/-- The universal numeric tolerance, `static double TOL = 1E-8` in libhpf.c. -/
def TOL : ℚ := 1 / 100000000

/-- Embeds `dabs` from libhpf.c. -/
def dabs (v : ℚ) : ℚ := if 0 ≤ v then v else -v

/-- Embeds the `Breakpoint` struct of libhpf.c: a lambda value together with
a source-set indicator vector over the original node indices. -/
structure Breakpoint where
  lambdaValue : ℚ
  sourceSetIndicator : List ℕ
deriving DecidableEq, Repr

/-- The scan loop of `removeDuplicateBreakpoints` (libhpf.c:1281-1302), acting
on the nonempty tail of the list.  The first argument is the record the C
cursor `currentBreakpoint` points at; the list is what follows it.  When the
next record has an equal lambda it is unlinked and the cursor then advances
past it (`currentBreakpoint = currentBreakpoint->next` runs after the
removal), so after a removal the element following the removed one is never
compared against the survivor. -/
def dedupScan : Breakpoint → List Breakpoint → List Breakpoint
  | c, [] => [c]
  | c, [n] => if c.lambdaValue = n.lambdaValue then [c] else [c, n]
  | c, n :: c' :: r =>
      if c.lambdaValue = n.lambdaValue then c :: dedupScan c' r
      else c :: dedupScan n (c' :: r)

/-- Embeds `removeDuplicateBreakpoints` (libhpf.c:1276-1303).  The C function
reads `firstBreakpoint->next` without a null check, so the empty list is the
crash case, modelled as `none`. -/
def removeDuplicateBreakpoints : List Breakpoint → Option (List Breakpoint)
  | [] => none
  | c :: rest => some (dedupScan c rest)

/-- Position-parity annotation used to describe `dedupScan`: walking the tail
of the list, each record equal in lambda to its predecessor alternates the
parity bit, and a record starting a new run of equal lambdas resets it to
`false`.  A record's parity is `false` exactly when it sits at an odd
position (1st, 3rd, ...) of its maximal run of equal lambda values. -/
def dupRunParity : Breakpoint → Bool → List Breakpoint → List (Breakpoint × Bool)
  | _, _, [] => []
  | c, p, b :: r =>
      if c.lambdaValue = b.lambdaValue then (b, !p) :: dupRunParity b (!p) r
      else (b, false) :: dupRunParity b false r

/-- Outcome of the per-arc validation chain in `readData` (src/c/hpf.c:199-238):
an arc line either aborts the program with a diagnostic (`reject`), is
silently dropped (`drop`, for arcs into the source or out of the sink), or is
stored in the arc matrix (`accept`). -/
inductive ArcCheck where
  | reject
  | drop
  | accept
deriving DecidableEq, Repr

/-- Embeds the validation chain run for an `a` input line by `readData`
(src/c/hpf.c:199-238), in source order: terminals must be assigned, node ids
in range, no self loop, a strictly positive multiplier only on arcs leaving
the source, a strictly negative multiplier only on arcs entering the sink,
the declared arc count not yet exhausted; then arcs into the source or out of
the sink are dropped, and everything else is stored. -/
def readDataArcCheck (numNodes source sink : ℤ) (sourceAssigned sinkAssigned : Bool)
    (fromNode toNode : ℤ) (multiplier : ℚ) (arcCount numArcs : ℤ) : ArcCheck :=
  if sinkAssigned = false ∨ sourceAssigned = false then .reject
  else if fromNode < 0 ∨ toNode < 0 ∨ numNodes ≤ fromNode ∨ numNodes ≤ toNode then .reject
  else if fromNode = toNode then .reject
  else if 0 < multiplier ∧ fromNode ≠ source then .reject
  else if multiplier < 0 ∧ toNode ≠ sink then .reject
  else if numArcs ≤ arcCount then .reject
  else if toNode = source ∨ fromNode = sink then .drop
  else .accept

/-- An internal arc of a `CutProblem` (the `Arc` struct fields used by the
problem layer): endpoints are indices into the problem's node list, and the
capacity field caches `constant + multiplier * lambda` once evaluated. -/
structure PArc where
  fromIdx : ℕ
  toIdx : ℕ
  constant : ℚ
  multiplier : ℚ
  capacity : ℚ
deriving DecidableEq, Repr

/-- The loop body of `evaluateCapacities` (libhpf.c:1399-1419) for one arc:
evaluate `constant + multiplier * lambda`; a negative value is clamped to
zero when the rounding flag is set or the value exceeds `-TOL`, and otherwise
the program aborts (`none`). -/
def evalArcCap (round : Bool) (lam : ℚ) (a : PArc) : Option PArc :=
  let v := a.constant + a.multiplier * lam
  if v < 0 then
    if round = true ∨ -TOL < v then some { a with capacity := 0 }
    else none
  else some { a with capacity := v }

/-- Embeds `evaluateCapacities` (libhpf.c:1399-1419) over a whole arc list. -/
def evaluateCapacities (round : Bool) (lam : ℚ) (arcs : List PArc) : Option (List PArc) :=
  arcs.mapM (evalArcCap round lam)

/-- An internal node of a `CutProblem`: its index in the problem's node list
and its original index in the input graph (`-1` for the artificial source,
`-2` for the artificial sink). -/
structure PNode where
  number : ℕ
  originalIndex : ℤ
deriving DecidableEq, Repr

/-- Embeds the `CutProblem` struct of libhpf.c.  `sourceSet` and `sinkSet`
hold the original indices of the frozen partitions (the C code stores `Node`
records of which only `originalIndex` is ever read back). -/
structure CutProblem where
  numNodesInList : ℕ
  sourceSet : List ℤ
  sinkSet : List ℤ
  nodeList : List PNode
  arcList : List PArc
  lambdaValue : ℚ
  solved : Bool
  cutValue : ℚ
  cutMultiplier : ℚ
  cutConstant : ℚ
  optimalSourceSetIndicator : List ℕ
deriving DecidableEq, Repr

instance : Inhabited CutProblem :=
  ⟨⟨0, [], [], [], [], 0, false, 0, 0, 0, []⟩⟩

/-- One row of the input arc matrix handed to `hpf_solve`
(`from`, `to`, constant capacity, lambda multiplier). -/
structure SArc where
  fromN : ℕ
  toN : ℕ
  constant : ℚ
  multiplier : ℚ
deriving DecidableEq, Repr

/-- The branch selected by the case analysis on the intersection point in
`parametricCut` (libhpf.c:2106-2149). -/
inductive PCAction where
  | recurse (lstar : ℚ)
  | emitHigh
  | emitLow
  | noAction
deriving DecidableEq, Repr

/-- Embeds the intersection computation and case analysis of `parametricCut`
(libhpf.c:2106-2149): when the two cut lines' multipliers differ by more than
`TOL` the intersection `lambdaIntersect` exists; the call recurses when it is
strictly inside the interval by more than `TOL` on each side, emits the upper
endpoint when the intersection is within `TOL` of it, emits the lower
endpoint when within `TOL` of it, and otherwise does nothing. -/
def pcAction (lowLam highLam lowC lowM highC highM : ℚ) : PCAction :=
  if TOL < dabs (highM - lowM) then
    let lstar := (lowC - highC) / (highM - lowM)
    if lstar + TOL < highLam ∧ lowLam < lstar - TOL then .recurse lstar
    else if dabs (lstar - highLam) ≤ TOL then .emitHigh
    else if dabs (lstar - lowLam) ≤ TOL then .emitLow
    else .noAction
  else .noAction

/-- Engine-side node record (the `Node` struct fields used by the solve
phase).  The intrusive `next`/`childList`/`nextScan` pointers become an
explicit child list and a scan suffix of it; `outOfTree` holds arc indices. -/
structure ENode where
  label : ℕ
  excess : ℚ
  parent : Option ℕ
  childList : List ℕ
  nextScan : List ℕ
  outOfTree : List ℕ
  nextArc : ℕ
  arcToParent : Option ℕ
  originalIndex : ℤ
deriving DecidableEq, Repr

/-- Embeds `initializeNode` (libhpf.c:687-706) for the fields kept here. -/
def initNode (orig : ℤ) : ENode :=
  ⟨0, 0, none, [], [], [], 0, none, orig⟩

/-- Engine-side arc record (`Arc` struct fields used by the solve phase).
`direction = true` is the C `direction = 1` (forward tree arc). -/
structure EArc where
  fromN : ℕ
  toN : ℕ
  flow : ℚ
  capacity : ℚ
  direction : Bool
deriving DecidableEq, Repr

/-- The global counters of libhpf.c that survive across the solves of one
`hpf_solve` run: `highestStrongLabel` and the five statistics counters.
`reset_globals` sets `highestStrongLabel` to 1 and zeroes the counters. -/
structure Globals where
  hsl : ℕ
  arcScans : ℕ
  pushes : ℕ
  mergers : ℕ
  relabels : ℕ
  gaps : ℕ
deriving DecidableEq, Repr

/-- The state set by `reset_globals` (libhpf.c:2158-2191). -/
def resetGlobals : Globals := ⟨1, 0, 0, 0, 0, 0⟩

/-- The per-solve state of the pseudoflow engine: the node and arc arenas,
the `strongRoots` buckets (FIFO queues of node indices indexed by label),
`labelCount`, and the globals listed above. -/
structure EngState where
  nodes : List ENode
  arcs : List EArc
  buckets : List (List ℕ)
  labelCount : List ℕ
  hsl : ℕ
  numNodes : ℕ
  source : ℕ
  sink : ℕ
  arcScans : ℕ
  pushes : ℕ
  mergers : ℕ
  relabels : ℕ
  gaps : ℕ
deriving DecidableEq, Repr

def getNode (S : EngState) (i : ℕ) : ENode := S.nodes.getD i (initNode (-10))

def setNode (S : EngState) (i : ℕ) (n : ENode) : EngState :=
  { S with nodes := S.nodes.set i n }

def modifyNode (S : EngState) (i : ℕ) (f : ENode → ENode) : EngState :=
  setNode S i (f (getNode S i))

def getArc (S : EngState) (i : ℕ) : EArc := S.arcs.getD i ⟨0, 0, 0, 0, true⟩

def setArc (S : EngState) (i : ℕ) (a : EArc) : EngState :=
  { S with arcs := S.arcs.set i a }

def modifyArc (S : EngState) (i : ℕ) (f : EArc → EArc) : EngState :=
  setArc S i (f (getArc S i))

def getBucket (S : EngState) (i : ℕ) : List ℕ := S.buckets.getD i []

def setBucket (S : EngState) (i : ℕ) (b : List ℕ) : EngState :=
  { S with buckets := S.buckets.set i b }

def getLC (S : EngState) (i : ℕ) : ℕ := S.labelCount.getD i 0

def setLC (S : EngState) (i : ℕ) (v : ℕ) : EngState :=
  { S with labelCount := S.labelCount.set i v }

def decLC (S : EngState) (i : ℕ) : EngState := setLC S i (getLC S i - 1)

def incLC (S : EngState) (i : ℕ) : EngState := setLC S i (getLC S i + 1)

def setNextScan (S : EngState) (v : ℕ) (l : List ℕ) : EngState :=
  modifyNode S v (fun n => { n with nextScan := l })

/-- Embeds `addToStrongBucket` (libhpf.c:319-336): append at the end of the
bucket's queue. -/
def addToStrongBucket (S : EngState) (i : ℕ) (v : ℕ) : EngState :=
  setBucket S i (getBucket S i ++ [v])

/-- Embeds `addRelationship` (libhpf.c:338-348): the child is pushed at the
head of the new parent's child list. -/
def addRelationship (S : EngState) (newParent child : ℕ) : EngState :=
  let S1 := modifyNode S child (fun n => { n with parent := some newParent })
  modifyNode S1 newParent (fun n => { n with childList := child :: n.childList })

/-- Embeds `breakRelationship` (libhpf.c:350-370): clear the child's parent
pointer and unlink it from the old parent's child list. -/
def breakRelationship (S : EngState) (oldParent child : ℕ) : EngState :=
  let S1 := modifyNode S child (fun n => { n with parent := none })
  modifyNode S1 oldParent (fun n => { n with childList := n.childList.erase child })

/-- The path-reversal loop of `merge` (libhpf.c:372-397). -/
def mergeLoop : ℕ → EngState → ℕ → ℕ → ℕ → Option EngState
  | 0, _, _, _, _ => none
  | fuel + 1, S, current, newParent, newArc =>
    match (getNode S current).parent with
    | some oldParent =>
        match (getNode S current).arcToParent with
        | none => none
        | some oldArc =>
            let S1 := modifyNode S current (fun n => { n with arcToParent := some newArc })
            let S2 := breakRelationship S1 oldParent current
            let S3 := addRelationship S2 newParent current
            let S4 := modifyArc S3 oldArc (fun a => { a with direction := !a.direction })
            mergeLoop fuel S4 oldParent current oldArc
    | none =>
        let S1 := modifyNode S current (fun n => { n with arcToParent := some newArc })
        some (addRelationship S1 newParent current)

/-- Embeds `merge` (libhpf.c:372-397): hang the strong node's tree under the
weak node via the new arc, reversing parent pointers along the path from the
strong node to its old root and flipping each traversed arc's direction. -/
def merge (fuel : ℕ) (S : EngState) (parent child newArc : ℕ) : Option EngState :=
  mergeLoop fuel { S with mergers := S.mergers + 1 } child parent newArc

/-- Embeds `pushUpward` (libhpf.c:400-424). -/
def pushUpward (S : EngState) (arcIdx child parent : ℕ) (resCap : ℚ) : EngState :=
  let S0 := { S with pushes := S.pushes + 1 }
  let ex := (getNode S0 child).excess
  if 0 ≤ resCap - ex then
    let S1 := modifyNode S0 parent (fun n => { n with excess := n.excess + ex })
    let S2 := modifyArc S1 arcIdx (fun a => { a with flow := a.flow + ex })
    modifyNode S2 child (fun n => { n with excess := 0 })
  else
    let S1 := modifyArc S0 arcIdx (fun a => { a with direction := false, flow := a.capacity })
    let S2 := modifyNode S1 parent (fun n => { n with excess := n.excess + resCap })
    let S3 := modifyNode S2 child (fun n => { n with excess := n.excess - resCap })
    let S4 := modifyNode S3 parent (fun n => { n with outOfTree := n.outOfTree ++ [arcIdx] })
    let S5 := breakRelationship S4 parent child
    addToStrongBucket S5 (getNode S5 child).label child

/-- Embeds `pushDownward` (libhpf.c:427-451). -/
def pushDownward (S : EngState) (arcIdx child parent : ℕ) (flow : ℚ) : EngState :=
  let S0 := { S with pushes := S.pushes + 1 }
  let ex := (getNode S0 child).excess
  if 0 ≤ flow - ex then
    let S1 := modifyNode S0 parent (fun n => { n with excess := n.excess + ex })
    let S2 := modifyArc S1 arcIdx (fun a => { a with flow := a.flow - ex })
    modifyNode S2 child (fun n => { n with excess := 0 })
  else
    let S1 := modifyArc S0 arcIdx (fun a => { a with direction := true, flow := 0 })
    let S2 := modifyNode S1 child (fun n => { n with excess := n.excess - flow })
    let S3 := modifyNode S2 parent (fun n => { n with excess := n.excess + flow })
    let S4 := modifyNode S3 parent (fun n => { n with outOfTree := n.outOfTree ++ [arcIdx] })
    let S5 := breakRelationship S4 parent child
    addToStrongBucket S5 (getNode S5 child).label child

/-- The walk of `pushExcess` (libhpf.c:478-508): climb tree edges while the
current node has nonzero excess and a parent, pushing along the arc to the
parent; `prevEx` holds the parent's excess read before the push, as in C. -/
def pushExcessLoop : ℕ → EngState → ℕ → ℚ → Option EngState
  | 0, _, _, _ => none
  | fuel + 1, S, current, prevEx =>
    let nd := getNode S current
    if nd.excess ≠ 0 then
      match nd.parent with
      | some parent =>
          match nd.arcToParent with
          | none => none
          | some arcIdx =>
              let prevEx' := (getNode S parent).excess
              let ar := getArc S arcIdx
              let S1 :=
                if ar.direction then pushUpward S arcIdx current parent (ar.capacity - ar.flow)
                else pushDownward S arcIdx current parent ar.flow
              pushExcessLoop fuel S1 parent prevEx'
      | none =>
          if 0 < nd.excess ∧ prevEx ≤ 0 then
            some (addToStrongBucket S nd.label current)
          else some S
    else
      if 0 < nd.excess ∧ prevEx ≤ 0 then
        some (addToStrongBucket S nd.label current)
      else some S

/-- Embeds `pushExcess` (libhpf.c:478-508); `prevEx` starts at 1 as in C. -/
def pushExcess (fuel : ℕ) (S : EngState) (strongRoot : ℕ) : Option EngState :=
  pushExcessLoop fuel S strongRoot 1

/-- The scan loop of `findWeakNode` (libhpf.c:511-545) from out-of-tree slot
`i` upward.  A weak node is one whose label is `highestStrongLabel - 1`; the
comparison is phrased as `label + 1 = hsl` which agrees with the C unsigned
comparison for every reachable `hsl ≥ 1`.  On a hit the arc is removed from
the bucket by swapping in the last entry, as in C. -/
def findWeakAux : ℕ → EngState → ℕ → ℕ → EngState × Option (ℕ × ℕ)
  | 0, S, _, _ => (S, none)
  | fuel + 1, S, v, i =>
    let nd := getNode S v
    if i < nd.outOfTree.length then
      let S1 := { S with arcScans := S.arcScans + 1 }
      let a := nd.outOfTree.getD i 0
      let ar := getArc S1 a
      let last := nd.outOfTree.getD (nd.outOfTree.length - 1) 0
      let removed := (nd.outOfTree.set i last).take (nd.outOfTree.length - 1)
      if (getNode S1 ar.toN).label + 1 = S1.hsl then
        (modifyNode S1 v (fun n => { n with nextArc := i, outOfTree := removed }),
         some (a, ar.toN))
      else if (getNode S1 ar.fromN).label + 1 = S1.hsl then
        (modifyNode S1 v (fun n => { n with nextArc := i, outOfTree := removed }),
         some (a, ar.fromN))
      else findWeakAux fuel S1 v (i + 1)
    else
      (modifyNode S v (fun n => { n with nextArc := n.outOfTree.length }), none)

/-- Embeds `findWeakNode` (libhpf.c:511-545). -/
def findWeakNode (S : EngState) (v : ℕ) : EngState × Option (ℕ × ℕ) :=
  findWeakAux ((getNode S v).outOfTree.length + 1) S v (getNode S v).nextArc

/-- The scan loop of `checkChildren` (libhpf.c:548-569) over the remaining
`nextScan` suffix of the node's child list.  Returns `true` when a child with
the node's own label is found (the cursor is left pointing at it), and
`false` after relabelling the node. -/
def checkChildrenAux (S : EngState) (v : ℕ) : List ℕ → EngState × Bool
  | [] =>
      let S1 := setNextScan S v []
      let S2 := decLC S1 (getNode S1 v).label
      let S3 := modifyNode S2 v (fun n => { n with label := n.label + 1, nextArc := 0 })
      let S4 := incLC S3 (getNode S3 v).label
      ({ S4 with relabels := S4.relabels + 1 }, false)
  | c :: rest =>
      if (getNode S c).label = (getNode S v).label then
        (setNextScan S v (c :: rest), true)
      else checkChildrenAux S v rest

/-- Embeds `checkChildren` (libhpf.c:548-569). -/
def checkChildren (S : EngState) (v : ℕ) : EngState × Bool :=
  checkChildrenAux S v (getNode S v).nextScan

/-- The DFS loop of `processRoot` (libhpf.c:802-825): descend along the
`nextScan` cursors looking for an out-of-tree arc to a weak node, merging and
pushing from the root when one is found; otherwise relabel exhausted nodes
and climb back to the parent.  When the walk leaves the root, the root is
re-enqueued at its (possibly increased) label and `highestStrongLabel` is
incremented. -/
def processRootLoop : ℕ → EngState → ℕ → ℕ → Option EngState
  | 0, _, _, _ => none
  | fuel + 1, S, root, cur =>
    match (getNode S cur).nextScan with
    | temp :: rest =>
        let S1 := setNextScan S cur rest
        let S2 := setNextScan S1 temp (getNode S1 temp).childList
        match findWeakNode S2 temp with
        | (S3, some (arcIdx, weak)) =>
            match merge fuel S3 weak temp arcIdx with
            | none => none
            | some S4 => pushExcess fuel S4 root
        | (S3, none) =>
            let S4 := (checkChildren S3 temp).1
            processRootLoop fuel S4 root temp
    | [] =>
        match (getNode S cur).parent with
        | some p =>
            let S1 := (checkChildren S p).1
            processRootLoop fuel S1 root p
        | none =>
            let S1 := addToStrongBucket S (getNode S root).label root
            some { S1 with hsl := S1.hsl + 1 }

/-- Embeds `processRoot` (libhpf.c:783-829). -/
def processRoot (fuel : ℕ) (S : EngState) (root : ℕ) : Option EngState :=
  let S0 := setNextScan S root (getNode S root).childList
  match findWeakNode S0 root with
  | (S1, some (arcIdx, weak)) =>
      match merge fuel S1 weak root arcIdx with
      | none => none
      | some S2 => pushExcess fuel S2 root
  | (S1, none) =>
      let S2 := (checkChildren S1 root).1
      processRootLoop fuel S2 root root

/-- Embeds `liftAll` (libhpf.c:284-309): relabel the whole subtree of the
given root to `numNodes`, decrementing `labelCount` at each node's old label
(the C code never increments a count for the new label). -/
def liftAllGo : ℕ → EngState → ℕ → Option EngState
  | 0, _, _ => none
  | fuel + 1, S, v =>
      let S1 := decLC S (getNode S v).label
      let S2 := modifyNode S1 v (fun n => { n with label := S1.numNodes, nextScan := [] })
      (getNode S2 v).childList.foldlM (fun s c => liftAllGo fuel s c) S2

/-- Drain loop inside `getHighestStrongRoot` (libhpf.c:637-644): repeatedly
dequeue from the gapped bucket and lift the whole tree. -/
def drainLift : ℕ → EngState → ℕ → Option EngState
  | 0, _, _ => none
  | fuel + 1, S, lbl =>
    match getBucket S lbl with
    | [] => some S
    | r :: rest =>
        let S1 := { setBucket S lbl rest with gaps := S.gaps + 1 }
        match liftAllGo fuel S1 r with
        | none => none
        | some S2 => drainLift fuel S2 lbl

/-- The label-0 epilogue of `getHighestStrongRoot` (libhpf.c:648-672):
promote every bucket-0 root to label 1, reset `highestStrongLabel` to 1 and
dequeue the first root of bucket 1 (the C code dereferences it without a
null check; that unreachable case is `none`). -/
def ghsrBucketZero (S : EngState) : Option (EngState × Option ℕ) :=
  if getBucket S 0 = [] then some (S, none)
  else
    let zs := getBucket S 0
    let S1 := zs.foldl (fun s r =>
        let s1 := modifyNode s r (fun n => { n with label := 1 })
        let s2 := incLC (decLC s1 0) 1
        addToStrongBucket { s2 with relabels := s2.relabels + 1 } 1 r)
      (setBucket S 0 [])
    let S2 := { S1 with hsl := 1 }
    match getBucket S2 1 with
    | [] => none
    | r :: rest => some (setBucket S2 1 rest, some r)

/-- The downward label scan of `getHighestStrongRoot` (libhpf.c:624-646);
`i + 1` is the label currently examined, so the recursion handles labels
`hsl, hsl-1, ..., 1` and then falls through to the bucket-0 epilogue. -/
def ghsrScan : ℕ → EngState → ℕ → Option (EngState × Option ℕ)
  | _, S, 0 => ghsrBucketZero S
  | fuel, S, i + 1 =>
    match getBucket S (i + 1) with
    | [] => ghsrScan fuel S i
    | r :: rest =>
        let S1 := { S with hsl := i + 1 }
        if 0 < getLC S1 i then
          some (setBucket S1 (i + 1) rest, some r)
        else
          match drainLift fuel S1 (i + 1) with
          | none => none
          | some S2 => ghsrScan fuel S2 i

/-- Embeds `getHighestStrongRoot` (libhpf.c:616-673).  The outer `none` is
fuel exhaustion; `some (S, none)` is the C `NULL` return. -/
def getHighestStrongRoot (fuel : ℕ) (S : EngState) : Option (EngState × Option ℕ) :=
  ghsrScan fuel S S.hsl

/-- Embeds `pseudoflowPhase1` (libhpf.c:1264-1274). -/
def pseudoflowPhase1 : ℕ → EngState → Option EngState
  | 0, _ => none
  | fuel + 1, S =>
    match getHighestStrongRoot fuel S with
    | none => none
    | some (S1, none) => some S1
    | some (S1, some r) =>
        match processRoot fuel S1 r with
        | none => none
        | some S2 => pseudoflowPhase1 fuel S2

/-- Arc placement step of `createMemoryStructures` (libhpf.c:1861-1878):
ignore arcs into the source, out of the sink and self loops; pre-saturate a
direct source-to-sink arc; attach sink-adjacent arcs to the sink's
out-of-tree bucket and every other arc to its tail's bucket. -/
def placeArc (S : EngState) (i : ℕ) : EngState :=
  let a := getArc S i
  if S.source = a.toN ∨ S.sink = a.fromN ∨ a.fromN = a.toN then S
  else if S.source = a.fromN ∧ a.toN = S.sink then
    setArc S i { a with flow := a.capacity }
  else if a.toN = S.sink then
    modifyNode S a.toN (fun n => { n with outOfTree := n.outOfTree ++ [i] })
  else
    modifyNode S a.fromN (fun n => { n with outOfTree := n.outOfTree ++ [i] })

/-- Embeds `createMemoryStructures` (libhpf.c:1845-1898): build the engine
state for a solve, placing each arc in order and zero-initializing the
strong-root buckets and label counts.  `highestStrongLabel` and the counters
carry over from the globals, as in C where they are process globals. -/
def createMemoryStructures (nodes : List ENode) (arcs : List EArc)
    (numNodes source sink : ℕ) (g : Globals) : EngState :=
  let base : EngState :=
    ⟨nodes, arcs, List.replicate numNodes [], List.replicate numNodes 0,
     g.hsl, numNodes, source, sink, g.arcScans, g.pushes, g.mergers, g.relabels, g.gaps⟩
  (List.range arcs.length).foldl placeArc base

/-- Saturation step for a source-adjacent arc in `simpleInitialization`
(libhpf.c:580-586). -/
def satSourceArc (S : EngState) (i : ℕ) : EngState :=
  let cap := (getArc S i).capacity
  let S1 := modifyArc S i (fun a => { a with flow := cap })
  modifyNode S1 (getArc S1 i).toN (fun n => { n with excess := n.excess + cap })

/-- Saturation step for a sink-adjacent arc in `simpleInitialization`
(libhpf.c:588-594). -/
def satSinkArc (S : EngState) (i : ℕ) : EngState :=
  let cap := (getArc S i).capacity
  let S1 := modifyArc S i (fun a => { a with flow := cap })
  modifyNode S1 (getArc S1 i).fromN (fun n => { n with excess := n.excess - cap })

/-- Enqueue step of `simpleInitialization` (libhpf.c:599-608): a node with
positive excess gets label 1 and joins the bucket of label 1. -/
def enqueueStep (S : EngState) (i : ℕ) : EngState :=
  if 0 < (getNode S i).excess then
    let S1 := modifyNode S i (fun n => { n with label := 1 })
    let S2 := incLC S1 1
    addToStrongBucket S2 1 i
  else S

/-- Embeds `simpleInitialization` (libhpf.c:572-613): saturate the
source-adjacent and sink-adjacent arcs, zero the terminal excesses, enqueue
every positive-excess node at label 1, set the source label to `numNodes`,
the sink label to 0 and `labelCount[0] = numNodes - 2 - labelCount[1]`. -/
def simpleInitialization (S : EngState) : EngState :=
  let S1 := (getNode S S.source).outOfTree.foldl satSourceArc S
  let S2 := (getNode S1 S.sink).outOfTree.foldl satSinkArc S1
  let S3 := modifyNode S2 S.source (fun n => { n with excess := 0 })
  let S4 := modifyNode S3 S.sink (fun n => { n with excess := 0 })
  let S5 := (List.range S.numNodes).foldl enqueueStep S4
  let S6 := modifyNode S5 S.source (fun n => { n with label := S.numNodes })
  let S7 := modifyNode S6 S.sink (fun n => { n with label := 0 })
  setLC S7 0 (S.numNodes - 2 - getLC S7 1)

/-- Fresh engine nodes for a solve: `solveProblem` uses the problem's node
records, which at that point are exactly as `initializeNode` left them, with
the original index set. -/
def engineNodesOf (p : CutProblem) : List ENode :=
  p.nodeList.map (fun pn => initNode pn.originalIndex)

/-- Engine arcs for a solve (libhpf.c:1971-2003): in maximal-source-set mode
a reversed copy of the arc array is built (endpoints swapped, capacity
copied); otherwise the problem's arcs are used as they are, with zero flow
and forward direction from their initialization. -/
def engineArcsOf (p : CutProblem) (maximal : Bool) : List EArc :=
  if maximal then p.arcList.map (fun a => ⟨a.toIdx, a.fromIdx, 0, a.capacity, true⟩)
  else p.arcList.map (fun a => ⟨a.fromIdx, a.toIdx, 0, a.capacity, true⟩)

/-- Cut-extraction of `solveProblem` (libhpf.c:2010-2057): build the source
set indicator over original indices from the final labels (inverted in
maximal mode), then overlay the frozen source and sink sets. -/
def extractIndicator (S : EngState) (p : CutProblem) (maximal : Bool) (ns : ℕ) : List ℕ :=
  let base := List.replicate ns 0
  let withNodes := ((List.range S.numNodes).drop 2).foldl (fun ind i =>
      let nd := getNode S i
      let v : ℕ :=
        if maximal then (if S.numNodes ≤ nd.label then 0 else 1)
        else (if S.numNodes ≤ nd.label then 1 else 0)
      ind.set nd.originalIndex.toNat v) base
  let withSrc := p.sourceSet.foldl (fun ind j => ind.set j.toNat 1) withNodes
  p.sinkSet.foldl (fun ind j => ind.set j.toNat 0) withSrc

/-- Embeds `evaluateCut` (libhpf.c:1900-1919): sum capacity, multiplier and
constant over the arcs crossing from the indicated source side to the sink
side; returns `(cutConstant, cutMultiplier, cutValue)`. -/
def evaluateCut (p : CutProblem) (ind : List ℕ) : ℚ × ℚ × ℚ :=
  p.arcList.foldl (fun acc a =>
      let oF := (p.nodeList.getD a.fromIdx ⟨0, -10⟩).originalIndex
      let oT := (p.nodeList.getD a.toIdx ⟨0, -10⟩).originalIndex
      if (oF = -1 ∨ ind.getD oF.toNat 0 = 1) ∧ (oT = -2 ∨ ind.getD oT.toNat 0 = 0) then
        (acc.1 + a.constant, acc.2.1 + a.multiplier, acc.2.2 + a.capacity)
      else acc)
    (0, 0, 0)

/-- Embeds `solveProblem` (libhpf.c:1921-2071).  A problem with only the two
artificial nodes is answered directly from the frozen partitions and the
artificial source-to-sink arcs; otherwise the engine is run (on the reversed
arcs, with the terminals swapped, in maximal-source-set mode) and the cut is
extracted from the final labels.  The returned globals carry the updated
`highestStrongLabel` and counters; `none` is fuel exhaustion. -/
def solveProblem (p : CutProblem) (maximal : Bool) (ns : ℕ) (g : Globals) (fuel : ℕ) :
    Option (CutProblem × Globals) :=
  if p.numNodesInList = 2 then
    let ind0 := p.sourceSet.foldl (fun ind j => ind.set j.toNat 1) (List.replicate ns 0)
    let ind := p.sinkSet.foldl (fun ind j => ind.set j.toNat 0) ind0
    let cut := p.arcList.foldl (fun acc a =>
        let oF := (p.nodeList.getD a.fromIdx ⟨0, -10⟩).originalIndex
        let oT := (p.nodeList.getD a.toIdx ⟨0, -10⟩).originalIndex
        if oF = -1 ∧ oT = -2 then
          (acc.1 + a.constant, acc.2.1 + a.multiplier, acc.2.2 + a.capacity)
        else acc)
      ((0 : ℚ), (0 : ℚ), (0 : ℚ))
    some ({ p with
            optimalSourceSetIndicator := ind
            cutConstant := cut.1
            cutMultiplier := cut.2.1
            cutValue := cut.2.2 }, g)
  else
    let src := if maximal then 1 else 0
    let snk := if maximal then 0 else 1
    let S0 := createMemoryStructures (engineNodesOf p) (engineArcsOf p maximal)
        p.numNodesInList src snk g
    let S1 := simpleInitialization S0
    match pseudoflowPhase1 fuel S1 with
    | none => none
    | some S2 =>
        let ind := extractIndicator S2 p maximal ns
        let cut := evaluateCut p ind
        some ({ p with
                optimalSourceSetIndicator := ind
                cutConstant := cut.1
                cutMultiplier := cut.2.1
                cutValue := cut.2.2 },
              ⟨S2.hsl, S2.arcScans, S2.pushes, S2.mergers, S2.relabels, S2.gaps⟩)

/-- Node-map construction of `initializeProblem` (libhpf.c:1491-1516): the
source maps to internal index 0, the sink to 1, every other node to 2, 3, ...
in ascending original order. -/
def mkNodeMapGo (source sink : ℕ) : List ℕ → ℕ → List ℕ
  | [], _ => []
  | i :: rest, cur =>
      if i = source then 0 :: mkNodeMapGo source sink rest cur
      else if i = sink then 1 :: mkNodeMapGo source sink rest cur
      else cur :: mkNodeMapGo source sink rest (cur + 1)

def mkNodeMap (ns source sink : ℕ) : List ℕ := mkNodeMapGo source sink (List.range ns) 2

/-- Embeds `initializeProblem` (libhpf.c:1439-1540): seed a `CutProblem` from
the input graph at the given lambda.  The artificial source (original index
-1) and sink (-2) head the node list, every input arc is copied with its
endpoints remapped, and all capacities are evaluated at lambda (which may
abort, hence `Option`). -/
def mkProblem (ns : ℕ) (superArcs : List SArc) (source sink : ℕ) (lam : ℚ) (round : Bool) :
    Option CutProblem :=
  let nodeMap := mkNodeMap ns source sink
  let others := ((List.range ns).filter (fun i => decide (i ≠ source ∧ i ≠ sink))).enum.map
      (fun x => (⟨2 + x.1, (x.2 : ℤ)⟩ : PNode))
  let nodeList : List PNode := ⟨0, -1⟩ :: ⟨1, -2⟩ :: others
  let arcs := superArcs.map (fun a =>
      (⟨nodeMap.getD a.fromN 0, nodeMap.getD a.toN 0, a.constant, a.multiplier, 0⟩ : PArc))
  match evaluateCapacities round lam arcs with
  | none => none
  | some arcs' =>
      some ⟨ns, [(source : ℤ)], [(sink : ℤ)], nodeList, arcs', lam, false, 0, 0, 0, []⟩

/-- Node-classification step of `contractProblem` (libhpf.c:1641-1665) for
one undecided node of the parent problem.  The accumulator holds the extra
source-set entries, the extra sink-set entries, the carried-forward nodes
(renumbered from 2), and the tail of the node map. -/
def contractStep (lowInd highInd : List ℕ) :
    List ℤ × List ℤ × List PNode × List ℕ → PNode → List ℤ × List ℤ × List PNode × List ℕ :=
  fun acc pn =>
    let j := pn.originalIndex.toNat
    if lowInd.getD j 0 = 1 then
      (acc.1 ++ [pn.originalIndex], acc.2.1, acc.2.2.1, acc.2.2.2 ++ [0])
    else if highInd.getD j 0 = 0 then
      (acc.1, acc.2.1 ++ [pn.originalIndex], acc.2.2.1, acc.2.2.2 ++ [1])
    else
      (acc.1, acc.2.1, acc.2.2.1 ++ [⟨2 + acc.2.2.1.length, pn.originalIndex⟩],
       acc.2.2.2 ++ [2 + acc.2.2.1.length])

/-- Merging update of `copyArcAdd` (libhpf.c:1390-1397) applied at a
previously allocated arc slot. -/
def addToArcSlot (arcs : List PArc) (i : ℕ) (a : PArc) : List PArc :=
  arcs.set i
    (let old := arcs.getD i ⟨0, 0, 0, 0, 0⟩
     { old with constant := old.constant + a.constant,
                multiplier := old.multiplier + a.multiplier })

/-- Arc-mapping step of `contractProblem` (libhpf.c:1689-1767) for one parent
arc: drop arcs inside one partition (or into the artificial source / out of
the artificial sink), merge source-adjacent and sink-adjacent arcs onto a
single slot per neighbour, and keep interior arcs individually.  The
accumulator holds the arcs built so far and the source/sink adjacency slot
tables (`-1` meaning unallocated). -/
def contractArcStep (nodeMap : List ℕ) :
    List PArc × List ℤ × List ℤ → PArc → List PArc × List ℤ × List ℤ :=
  fun acc a =>
    let nf := nodeMap.getD a.fromIdx 0
    let nt := nodeMap.getD a.toIdx 0
    if nf = nt ∨ nt = 0 ∨ nf = 1 then acc
    else if nf = 0 then
      if acc.2.1.getD nt (-1) = -1 then
        (acc.1 ++ [⟨0, nt, a.constant, a.multiplier, 0⟩],
         acc.2.1.set nt (acc.1.length : ℤ), acc.2.2)
      else (addToArcSlot acc.1 (acc.2.1.getD nt (-1)).toNat a, acc.2.1, acc.2.2)
    else if nt = 1 then
      if acc.2.2.getD nf (-1) = -1 then
        (acc.1 ++ [⟨nf, 1, a.constant, a.multiplier, 0⟩],
         acc.2.1, acc.2.2.set nf (acc.1.length : ℤ))
      else (addToArcSlot acc.1 (acc.2.2.getD nf (-1)).toNat a, acc.2.1, acc.2.2)
    else (acc.1 ++ [⟨nf, nt, a.constant, a.multiplier, 0⟩], acc.2.1, acc.2.2)

/-- Embeds `contractProblem` (libhpf.c:1542-1779): build the contracted
instance at the new lambda from a parent problem and the indicator vectors of
its lower and upper solves, then evaluate all capacities at the new lambda. -/
def contractProblem (old : CutProblem) (lam : ℚ) (lowInd highInd : List ℕ) (round : Bool) :
    Option CutProblem :=
  let parts := (old.nodeList.drop 2).foldl (contractStep lowInd highInd) ([], [], [], [])
  let kept := parts.2.2.1
  let nodeMap := 0 :: 1 :: parts.2.2.2
  let nn := 2 + kept.length
  let arcsRes := old.arcList.foldl (contractArcStep nodeMap)
      ([], List.replicate nn (-1 : ℤ), List.replicate nn (-1 : ℤ))
  match evaluateCapacities round lam arcsRes.1 with
  | none => none
  | some arcs' =>
      some ⟨nn, old.sourceSet ++ parts.1, old.sinkSet ++ parts.2.1,
            ⟨0, -1⟩ :: ⟨1, -2⟩ :: kept, arcs', lam, false, 0, 0, 0, []⟩

/-- Result of one `parametricCut` call: the two solved argument problems, the
breakpoints it appended in order, the number of times its subtree executed
the base-level terminal emission (libhpf.c:2151-2155), and the globals. -/
structure PCResult where
  lowOut : CutProblem
  highOut : CutProblem
  emissions : List Breakpoint
  terminalCount : ℕ
  globals : Globals
deriving DecidableEq, Repr

/-- The solve-if-unsolved steps of `parametricCut` (libhpf.c:2091-2104),
which run `solveProblem` and then set the problem's solved flag. -/
def solveIfNeeded (p : CutProblem) (maximal : Bool) (ns : ℕ) (g : Globals) (fuel : ℕ) :
    Option (CutProblem × Globals) :=
  if p.solved then some (p, g)
  else
    match solveProblem p maximal ns g fuel with
    | none => none
    | some (p', g') => some ({ p' with solved := true }, g')

/-- Embeds `parametricCut` (libhpf.c:2073-2156): solve the endpoint problems
if needed (minimal source set below, maximal above), decide the intersection
case with `pcAction`, recurse on two contracted problems at the intersection
when it is interior, emit an endpoint breakpoint when the intersection
coincides with one within `TOL`, and finally emit the terminal
`(lambdaHigh, high indicator)` breakpoint iff this call was base level (both
arguments unsolved at entry). -/
def parametricCut : ℕ → ℕ → Bool → Globals → CutProblem → CutProblem → Option PCResult
  | 0, _, _, _, _, _ => none
  | fuel + 1, ns, round, g, lowP, highP =>
    let baseLevel := !lowP.solved && !highP.solved
    match solveIfNeeded lowP false ns g fuel with
    | none => none
    | some (lowS, g1) =>
      match solveIfNeeded highP true ns g1 fuel with
      | none => none
      | some (highS, g2) =>
        let core : Option (List Breakpoint × ℕ × Globals) :=
          match pcAction lowS.lambdaValue highS.lambdaValue lowS.cutConstant
              lowS.cutMultiplier highS.cutConstant highS.cutMultiplier with
          | .recurse lstar =>
            (match contractProblem lowS lstar lowS.optimalSourceSetIndicator
                highS.optimalSourceSetIndicator round with
             | none => none
             | some upper =>
               match parametricCut fuel ns round g2 lowS upper with
               | none => none
               | some resL =>
                 match contractProblem lowS lstar lowS.optimalSourceSetIndicator
                     highS.optimalSourceSetIndicator round with
                 | none => none
                 | some lower =>
                   match parametricCut fuel ns round resL.globals lower highS with
                   | none => none
                   | some resR =>
                     some (resL.emissions ++ resR.emissions,
                           resL.terminalCount + resR.terminalCount, resR.globals))
          | .emitHigh => some ([⟨highS.lambdaValue, lowS.optimalSourceSetIndicator⟩], 0, g2)
          | .emitLow => some ([⟨lowS.lambdaValue, lowS.optimalSourceSetIndicator⟩], 0, g2)
          | .noAction => some ([], 0, g2)
        match core with
        | none => none
        | some (ems, tc, g3) =>
          some ⟨lowS, highS,
                ems ++ (if baseLevel then
                  [⟨highS.lambdaValue, highS.optimalSourceSetIndicator⟩] else []),
                tc + (if baseLevel then 1 else 0), g3⟩

/-- The outputs assembled by `prepareOutput` (libhpf.c:1305-1365): the
breakpoint count, the lambda vector, the row-major indicator matrix, and the
five counters in the order arc scans, mergers, pushes, relabels, gaps. -/
structure HPFOutput where
  numBreakpoints : ℕ
  breakpoints : List ℚ
  cuts : List ℕ
  stats : List ℕ
deriving DecidableEq, Repr

/-- Embeds `prepareOutput` (libhpf.c:1305-1365). -/
def prepareOutput (bps : List Breakpoint) (g : Globals) : HPFOutput :=
  ⟨bps.length, bps.map (·.lambdaValue), (bps.map (·.sourceSetIndicator)).flatten,
   [g.arcScans, g.mergers, g.pushes, g.relabels, g.gaps]⟩

/-- Embeds `hpf_solve` (libhpf.c:2193-2283): reset the globals, read the
graph (`useParametricCut` is cleared iff the lambda bounds are equal), seed
the endpoint problems, then either run the recursive parametric cut followed
by the duplicate-breakpoint pass, or — in the degenerate equal-bounds case —
solve a single problem and emit its breakpoint directly, and assemble the
output. -/
def hpf_solve (numNodesIn numArcsIn sourceIn sinkIn : ℕ) (arcMatrix : List SArc)
    (lambdaLow lambdaHigh : ℚ) (round : Bool) (fuel : ℕ) : Option HPFOutput :=
  let superArcs := arcMatrix.take numArcsIn
  match mkProblem numNodesIn superArcs sourceIn sinkIn lambdaLow round with
  | none => none
  | some lowP =>
    if lambdaLow = lambdaHigh then
      match solveProblem lowP false numNodesIn resetGlobals fuel with
      | none => none
      | some (lowS, g1) =>
          some (prepareOutput [⟨lowS.lambdaValue, lowS.optimalSourceSetIndicator⟩] g1)
    else
      match mkProblem numNodesIn superArcs sourceIn sinkIn lambdaHigh round with
      | none => none
      | some highP =>
        match parametricCut fuel numNodesIn round resetGlobals lowP highP with
        | none => none
        | some res =>
          match removeDuplicateBreakpoints res.emissions with
          | none => none
          | some bps => some (prepareOutput bps res.globals)

/-- Specification-side brute-force enumeration of all 0/1 vectors. -/
def allBitLists : ℕ → List (List ℕ)
  | 0 => [[]]
  | n + 1 => (allBitLists n).flatMap (fun l => [0 :: l, 1 :: l])

/-- Specification-side: all source-set indicator vectors of an s-t cut. -/
def stIndicators (ns s t : ℕ) : List (List ℕ) :=
  (allBitLists ns).filter (fun v => decide (v.getD s 0 = 1 ∧ v.getD t 0 = 0))

/-- Specification-side cut value of an indicator vector at a lambda. -/
def specCutValue (arcs : List SArc) (lam : ℚ) (ind : List ℕ) : ℚ :=
  arcs.foldl (fun acc a =>
      if ind.getD a.fromN 0 = 1 ∧ ind.getD a.toN 0 = 0 then
        acc + (a.constant + a.multiplier * lam)
      else acc)
    0

/-- Specification-side: the set (as a list) of minimum-cut source-set
indicators of the input graph at a lambda. -/
def specOptSourceSets (ns s t : ℕ) (arcs : List SArc) (lam : ℚ) : List (List ℕ) :=
  let cands := stIndicators ns s t
  cands.filter (fun v => cands.all (fun w =>
    decide (specCutValue arcs lam v ≤ specCutValue arcs lam w)))

/-- Formalization of the claim that every returned lambda is a value at which
the optimal source set changes: if some returned lambda is a change value
inside the interval then, in particular, the optimal source set cannot be the
same at every two points of the interval.  This necessary condition is what
the counterexample below refutes. -/
def hpfReturnsOnlyChangeValues : Prop :=
  ∀ (ns na s t : ℕ) (arcMat : List SArc) (lamLow lamHigh : ℚ) (round : Bool) (fuel : ℕ)
    (out : HPFOutput) (b : ℚ),
    hpf_solve ns na s t arcMat lamLow lamHigh round fuel = some out →
    b ∈ out.breakpoints →
    ∃ lam1 lam2 : ℚ, lamLow ≤ lam1 ∧ lam1 ≤ lamHigh ∧ lamLow ≤ lam2 ∧ lam2 ≤ lamHigh ∧
      specOptSourceSets ns s t (arcMat.take na) lam1 ≠
        specOptSourceSets ns s t (arcMat.take na) lam2

/-- Two-node instance: one arc from source 0 to sink 1 of constant capacity
5, solved over the interval [0, 1].  The optimal source set is constant, yet
the solver returns the breakpoint vector [1]. -/
def instAArcs : List SArc := [⟨0, 1, 5, 0⟩]

def instAOut : HPFOutput := (hpf_solve 2 1 0 1 instAArcs 0 1 false 30).getD ⟨0, [], [], []⟩

/-- Four-node chain instance 0 → 1 → 2 → 3 with capacities 5, 5, 3 (source
0, sink 3), solved over [0, 1].  Solving the lower endpoint problem drives
`highestStrongLabel` to 2, which is then still in effect when the upper
endpoint problem is initialized. -/
def chainArcs : List SArc := [⟨0, 1, 5, 0⟩, ⟨1, 2, 5, 0⟩, ⟨2, 3, 3, 0⟩]

def chainLowP : CutProblem := (mkProblem 4 chainArcs 0 3 0 false).getD default

def chainHighP : CutProblem := (mkProblem 4 chainArcs 0 3 1 false).getD default

/-- The globals after the first (lower-endpoint) solve inside the run of
`hpf_solve` on the chain instance with fuel 60: `parametricCut 60 ...` calls
`solveIfNeeded chainLowP false 4 resetGlobals 59`. -/
def chainG1 : Globals :=
  ((solveProblem chainLowP false 4 resetGlobals 59).getD (default, resetGlobals)).2

/-- The engine state on which `simpleInitialization` runs during the second
(upper-endpoint, maximal-source-set) solve of the same run: reversed arcs,
source at internal index 1, sink at 0, globals carried over from the first
solve. -/
def chainSecondEntry : EngState :=
  createMemoryStructures (engineNodesOf chainHighP) (engineArcsOf chainHighP true)
    chainHighP.numNodesInList 1 0 chainG1

def chainSecondInit : EngState := simpleInitialization chainSecondEntry

instance : Inhabited Globals := ⟨resetGlobals⟩

instance : Inhabited PCResult := ⟨default, default, [], 0, resetGlobals⟩

instance : Inhabited HPFOutput := ⟨0, [], [], []⟩

/-- The result of the whole parametric recursion on the chain instance. -/
def chainRes : PCResult :=
  (parametricCut 60 4 false resetGlobals chainLowP chainHighP).getD default

/-- The full solver output on the chain instance. -/
def chainOut : HPFOutput := (hpf_solve 4 3 0 3 chainArcs 0 1 false 60).getD default

/-- Concrete indicator vectors used to exercise `contractProblem`: node 1 is
decided to the source side (`lowInd[1] = 1`), node 2 stays undecided. -/
def contractExLowInd : List ℕ := [1, 1, 0, 0]

def contractExHighInd : List ℕ := [1, 1, 1, 0]

def contractEx : CutProblem :=
  (contractProblem chainLowP (1 / 2) contractExLowInd contractExHighInd false).getD default

/-! The successive states of `simpleInitialization`, named so the staged
correctness proof can speak about each of them. -/

def siS1 (S : EngState) : EngState := (getNode S S.source).outOfTree.foldl satSourceArc S

def siS2 (S : EngState) : EngState :=
  (getNode (siS1 S) S.sink).outOfTree.foldl satSinkArc (siS1 S)

def siS3 (S : EngState) : EngState :=
  modifyNode (siS2 S) S.source (fun n => { n with excess := 0 })

def siS4 (S : EngState) : EngState :=
  modifyNode (siS3 S) S.sink (fun n => { n with excess := 0 })

def siS5 (S : EngState) : EngState := (List.range S.numNodes).foldl enqueueStep (siS4 S)

def siS6 (S : EngState) : EngState :=
  modifyNode (siS5 S) S.source (fun n => { n with label := S.numNodes })

def siS7 (S : EngState) : EngState :=
  modifyNode (siS6 S) S.sink (fun n => { n with label := 0 })

/-- Common shape of a state-fold step that only touches arcs and node
excesses: everything relevant to labels, buckets and counters is preserved. -/
def PreservesFrame (step : EngState → ℕ → EngState) : Prop :=
  ∀ (S : EngState) (i : ℕ),
    (step S i).buckets = S.buckets ∧ (step S i).labelCount = S.labelCount ∧
    (step S i).hsl = S.hsl ∧ (step S i).numNodes = S.numNodes ∧
    (step S i).source = S.source ∧ (step S i).sink = S.sink ∧
    (step S i).nodes.length = S.nodes.length ∧
    (∀ k, (getNode (step S i) k).label = (getNode S k).label)

/-! ### Generic list lemmas -/

theorem getD_set_self {α : Type} (l : List α) (i : ℕ) (a d : α) (h : i < l.length) :
    (l.set i a).getD i d = a := by
  simp [List.getD_eq_getElem?_getD, List.getElem?_set_self', h]

theorem getD_set_ne {α : Type} (l : List α) (i j : ℕ) (a d : α) (h : i ≠ j) :
    (l.set j a).getD i d = l.getD i d := by
  simp [List.getD_eq_getElem?_getD, List.getElem?_set_ne (Ne.symm h)]

theorem getLast?_cons_of_ne_nil {α : Type} (a : α) (l : List α) (h : l ≠ []) :
    (a :: l).getLast? = l.getLast? := by
  match l with
  | [] => exact absurd rfl h
  | b :: r => exact List.getLast?_cons_cons

/-! ### The duplicate-breakpoint pass -/

theorem dupRunParity_map_fst : ∀ (rest : List Breakpoint) (c : Breakpoint) (p : Bool),
    (dupRunParity c p rest).map Prod.fst = rest := by
  intro rest
  induction rest with
  | nil => intro c p; rfl
  | cons b r ih =>
      intro c p
      by_cases h : c.lambdaValue = b.lambdaValue <;> simp [dupRunParity, h, ih]

theorem dedupScan_eq_aux : ∀ (n : ℕ) (rest : List Breakpoint), rest.length ≤ n →
    ∀ c : Breakpoint,
      dedupScan c rest =
        c :: ((dupRunParity c false rest).filter (fun q => !q.2)).map Prod.fst := by
  intro n
  induction n with
  | zero =>
      intro rest h c
      have hnil : rest = [] := List.length_eq_zero.mp (Nat.le_zero.mp h)
      subst hnil; rfl
  | succ n ih =>
      intro rest h c
      match rest with
      | [] => rfl
      | [b] =>
          by_cases hc : c.lambdaValue = b.lambdaValue <;>
            simp [dedupScan, dupRunParity, hc]
      | b :: b' :: r =>
          by_cases hc : c.lambdaValue = b.lambdaValue
          · have hkey : dupRunParity b true (b' :: r) =
                (b', false) :: dupRunParity b' false r := by
              by_cases hb : b.lambdaValue = b'.lambdaValue <;> simp [dupRunParity, hb]
            have hr : r.length ≤ n := by
              simp only [List.length_cons] at h; omega
            have hstep : dedupScan c (b :: b' :: r) = c :: dedupScan b' r := by
              simp [dedupScan, hc]
            have h1 : dupRunParity c false (b :: b' :: r)
                = (b, true) :: dupRunParity b true (b' :: r) := by
              simp [dupRunParity, hc]
            rw [hstep, ih r hr b', h1, hkey]
            simp
          · have hr : (b' :: r).length ≤ n := by
              simp only [List.length_cons] at h ⊢; omega
            have hstep : dedupScan c (b :: b' :: r) = c :: dedupScan b (b' :: r) := by
              simp [dedupScan, hc]
            have h1 : dupRunParity c false (b :: b' :: r)
                = (b, false) :: dupRunParity b false (b' :: r) := by
              simp [dupRunParity, hc]
            rw [hstep, ih (b' :: r) hr b, h1]
            simp

theorem dedupScan_ne_nil (c : Breakpoint) (rest : List Breakpoint) :
    dedupScan c rest ≠ [] := by
  rw [dedupScan_eq_aux rest.length rest le_rfl c]; simp

theorem dedupScan_sublist (c : Breakpoint) (rest : List Breakpoint) :
    List.Sublist (dedupScan c rest) (c :: rest) := by
  rw [dedupScan_eq_aux rest.length rest le_rfl c]
  have h1 : List.Sublist
      (((dupRunParity c false rest).filter (fun q => !q.2)).map Prod.fst)
      ((dupRunParity c false rest).map Prod.fst) :=
    (List.filter_sublist _).map _
  rw [dupRunParity_map_fst] at h1
  exact h1.cons₂ c

theorem dedupScan_getLast? : ∀ (n : ℕ) (rest : List Breakpoint), rest.length ≤ n →
    ∀ c : Breakpoint,
      ((dedupScan c rest).getLast?).map Breakpoint.lambdaValue
        = ((c :: rest).getLast?).map Breakpoint.lambdaValue := by
  intro n
  induction n with
  | zero =>
      intro rest h c
      have hnil : rest = [] := List.length_eq_zero.mp (Nat.le_zero.mp h)
      subst hnil; rfl
  | succ n ih =>
      intro rest h c
      match rest with
      | [] => rfl
      | [b] =>
          by_cases hc : c.lambdaValue = b.lambdaValue <;> simp [dedupScan, hc]
      | b :: b' :: r =>
          by_cases hc : c.lambdaValue = b.lambdaValue
          · have hr : r.length ≤ n := by
              simp only [List.length_cons] at h; omega
            rw [show dedupScan c (b :: b' :: r) = c :: dedupScan b' r by
                  simp [dedupScan, hc],
                getLast?_cons_of_ne_nil c _ (dedupScan_ne_nil b' r), ih r hr b',
                @List.getLast?_cons_cons _ c b (b' :: r),
                @List.getLast?_cons_cons _ b b' r]
          · have hr : (b' :: r).length ≤ n := by
              simp only [List.length_cons] at h ⊢; omega
            rw [show dedupScan c (b :: b' :: r) = c :: dedupScan b (b' :: r) by
                  simp [dedupScan, hc],
                getLast?_cons_of_ne_nil c _ (dedupScan_ne_nil b (b' :: r)),
                ih (b' :: r) hr b, @List.getLast?_cons_cons _ c b (b' :: r)]

/-- Claim C9 (amended): the single dedup pass retains exactly the records at
odd positions (1st, 3rd, 5th, ...) of every maximal run of equal lambda
values — in particular the first record of each run is always retained — but
because the scan skips the record that follows a removal, a run of length at
least 3 leaves consecutive equal-lambda records in place, so the result is
free of consecutive equal lambda values only when every run has length at
most 2. -/
theorem removeDuplicateBreakpoints_spec (c : Breakpoint) (rest : List Breakpoint) :
    removeDuplicateBreakpoints (c :: rest) =
      some (c :: ((dupRunParity c false rest).filter (fun q => !q.2)).map Prod.fst) := by
  simp [removeDuplicateBreakpoints, dedupScan_eq_aux rest.length rest le_rfl c]

/-- Claim C9 (counterexample): on a list of three records with the same
lambda value the pass keeps the first and the third, so two consecutive
records with exactly equal lambda values remain after the pass. -/
theorem removeDuplicateBreakpoints_counterexample :
    removeDuplicateBreakpoints [⟨0, [1]⟩, ⟨0, [2]⟩, ⟨0, [3]⟩]
        = some [⟨0, [1]⟩, ⟨0, [3]⟩] ∧
      (⟨0, [1]⟩ : Breakpoint).lambdaValue = (⟨0, [3]⟩ : Breakpoint).lambdaValue :=
  ⟨by decide, rfl⟩

/-! ### Input validation -/

/-- Claim C4 (counterexample): an arc line with tail equal to the source,
head equal to the sink and multiplier -1 is not rejected by `readData`: it
passes the whole validation chain and is stored (here with source 0, sink 1
in a 2-node graph, on the first of one declared arc). -/
theorem readDataArcCheck_counterexample :
    readDataArcCheck 2 0 1 true true 0 1 (-1) 0 1 = ArcCheck.accept ∧
      ArcCheck.accept ≠ ArcCheck.reject :=
  ⟨by decide, by decide⟩

/-- Claim C4 (amended): input loading accepts an arc whose tail is the
source, whose head is the sink and whose multiplier is negative: the sign
checks reject a positive multiplier only on arcs not leaving the source and a
negative multiplier only on arcs not entering the sink, and an arc from the
source to the sink satisfies neither condition.  (Moreover every validation
failure in `readData` terminates through `exit(0)`, i.e. with exit status
zero, not a non-zero code.) -/
theorem readDataArcCheck_source_to_sink_negative_accepted :
    ∀ (numNodes source sink : ℤ) (m : ℚ) (arcCount numArcs : ℤ),
      0 ≤ source → source < numNodes → 0 ≤ sink → sink < numNodes → source ≠ sink →
      m < 0 → arcCount < numArcs →
      readDataArcCheck numNodes source sink true true source sink m arcCount numArcs
        = ArcCheck.accept := by
  intro N s t m cnt na h1 h2 h3 h4 h5 h6 h7
  have hA : ¬ ((true : Bool) = false ∨ (true : Bool) = false) := by simp
  have hB : ¬ (s < 0 ∨ t < 0 ∨ N ≤ s ∨ N ≤ t) := by omega
  have hD : ¬ ((0 : ℚ) < m ∧ s ≠ s) := by simp
  have hE : ¬ (m < 0 ∧ t ≠ t) := by simp
  have hF : ¬ (na ≤ cnt) := not_le.mpr h7
  have hG : ¬ (t = s ∨ s = t) := by
    rintro (hg | hg)
    · exact h5 hg.symm
    · exact h5 hg
  unfold readDataArcCheck
  rw [if_neg hA, if_neg hB, if_neg h5, if_neg hD, if_neg hE, if_neg hF, if_neg hG]

/-- Claim C4 (witness for the amended theorem). -/
theorem readDataArcCheck_source_to_sink_negative_accepted_witness :
    readDataArcCheck 3 2 0 true true 2 0 (-5) 1 4 = ArcCheck.accept :=
  readDataArcCheck_source_to_sink_negative_accepted 3 2 0 (-5) 1 4
    (by norm_num) (by norm_num) (by norm_num) (by norm_num) (by norm_num)
    (by norm_num) (by norm_num)

/-! ### Capacity evaluation -/

/-- Claim C3 (confirmed): when a `CutProblem`'s arc capacities are evaluated
at its lambda, an arc whose value `constant + multiplier * lambda` is
negative is set to capacity 0 when the rounding flag is set or the value is
within `TOL = 1e-8` of zero, and otherwise evaluation is a fatal error; a
non-negative value is taken unchanged.  `evaluateCapacities` applies exactly
this per-arc rule to every arc of the problem. -/
theorem evalArcCap_policy :
    ∀ (round : Bool) (lam : ℚ) (a : PArc),
      (a.constant + a.multiplier * lam < 0 →
        ((round = true ∨ -TOL < a.constant + a.multiplier * lam →
            evalArcCap round lam a = some { a with capacity := 0 }) ∧
          (round = false → a.constant + a.multiplier * lam ≤ -TOL →
            evalArcCap round lam a = none))) ∧
      (0 ≤ a.constant + a.multiplier * lam →
        evalArcCap round lam a = some { a with capacity := a.constant + a.multiplier * lam }) ∧
      (∀ arcs : List PArc, evaluateCapacities round lam arcs
          = arcs.mapM (evalArcCap round lam)) := by
  intro round lam a
  refine ⟨fun hneg => ⟨fun hcl => ?_, fun hr ht => ?_⟩, fun hpos => ?_, fun arcs => rfl⟩
  · unfold evalArcCap
    rw [if_pos hneg, if_pos hcl]
  · unfold evalArcCap
    rw [if_pos hneg, if_neg]
    rintro (hx | hx)
    · rw [hr] at hx; exact Bool.false_ne_true hx
    · exact absurd hx (not_lt.mpr ht)
  · unfold evalArcCap
    rw [if_neg (not_lt.mpr hpos)]

/-- Claim C3 (witness): an arc with constant 0 and multiplier -1 evaluated at
lambda 2 gives -2; with the rounding flag set it is clamped to capacity 0. -/
theorem evalArcCap_policy_witness :
    evalArcCap true 2 ⟨0, 1, 0, -1, 7⟩ = some ⟨0, 1, 0, -1, 0⟩ := by
  have h := evalArcCap_policy true 2 ⟨0, 1, 0, -1, 7⟩
  exact (h.1 (by norm_num)).1 (Or.inl rfl)

/-! ### The intersection rule of the parametric driver -/

theorem dabs_eq_abs (v : ℚ) : dabs v = |v| := by
  unfold dabs
  rcases le_or_lt 0 v with h | h
  · rw [if_pos h, abs_of_nonneg h]
  · rw [if_neg (not_le.mpr h), abs_of_neg h]

theorem dabs_sub_comm (x y : ℚ) : dabs (x - y) = dabs (y - x) := by
  rw [dabs_eq_abs, dabs_eq_abs, abs_sub_comm]

theorem TOL_pos : 0 < TOL := by norm_num [TOL]

theorem pcAction_recurse_iff (lowLam highLam lowC lowM highC highM l : ℚ) :
    pcAction lowLam highLam lowC lowM highC highM = PCAction.recurse l ↔
      (TOL < dabs (highM - lowM) ∧ l = (lowC - highC) / (highM - lowM) ∧
        l + TOL < highLam ∧ lowLam < l - TOL) := by
  unfold pcAction
  by_cases h1 : TOL < dabs (highM - lowM)
  · rw [if_pos h1]
    by_cases h2 : (lowC - highC) / (highM - lowM) + TOL < highLam ∧
        lowLam < (lowC - highC) / (highM - lowM) - TOL
    · rw [if_pos h2]
      constructor
      · intro he
        have hl : (lowC - highC) / (highM - lowM) = l := by
          injection he
        exact ⟨h1, hl.symm, hl ▸ h2.1, hl ▸ h2.2⟩
      · rintro ⟨-, hl, -, -⟩
        rw [hl]
    · rw [if_neg h2]
      constructor
      · intro he
        by_cases h3 : dabs ((lowC - highC) / (highM - lowM) - highLam) ≤ TOL
        · rw [if_pos h3] at he; exact absurd he (by simp)
        · rw [if_neg h3] at he
          by_cases h4 : dabs ((lowC - highC) / (highM - lowM) - lowLam) ≤ TOL
          · rw [if_pos h4] at he; exact absurd he (by simp)
          · rw [if_neg h4] at he; exact absurd he (by simp)
      · rintro ⟨-, hl, hh, hlo⟩
        subst hl
        exact absurd ⟨hh, hlo⟩ h2
  · rw [if_neg h1]
    constructor
    · intro he; exact absurd he (by simp)
    · rintro ⟨ha, -⟩; exact absurd ha h1

/-- Claim C6 (confirmed): when the solved endpoint cut multipliers differ by
more than `TOL` the intersection is computed as
`(lowC - highC) / (highM - lowM)`, and `parametricCut` takes its recursive
branch exactly when that intersection lies strictly inside
`(lowLam + TOL, highLam - TOL)`; when the multipliers differ by at most `TOL`
the branch selector returns `noAction`, so no interior breakpoint is emitted
and no recursion occurs. -/
theorem parametricCut_intersection_rule :
    ∀ (lowLam highLam lowC lowM highC highM : ℚ),
      (dabs (lowM - highM) ≤ TOL →
        pcAction lowLam highLam lowC lowM highC highM = PCAction.noAction) ∧
      (∀ l, pcAction lowLam highLam lowC lowM highC highM = PCAction.recurse l →
        l = (lowC - highC) / (highM - lowM) ∧ lowLam + TOL < l ∧ l < highLam - TOL) ∧
      (TOL < dabs (lowM - highM) →
        lowLam + TOL < (lowC - highC) / (highM - lowM) →
        (lowC - highC) / (highM - lowM) < highLam - TOL →
        pcAction lowLam highLam lowC lowM highC highM
          = PCAction.recurse ((lowC - highC) / (highM - lowM))) := by
  intro lowLam highLam lowC lowM highC highM
  refine ⟨fun hpar => ?_, fun l he => ?_, fun h1 h2 h3 => ?_⟩
  · unfold pcAction
    rw [if_neg]
    rw [dabs_sub_comm]
    exact not_lt.mpr hpar
  · obtain ⟨-, hl, hh, hlo⟩ := (pcAction_recurse_iff _ _ _ _ _ _ l).mp he
    exact ⟨hl, by linarith, by linarith⟩
  · exact (pcAction_recurse_iff _ _ _ _ _ _ _).mpr
      ⟨by rwa [dabs_sub_comm] at h1, rfl, by linarith, by linarith⟩

/-- Claim C6 (witness): with the lower cut line `10 + 0·lambda` and the upper
cut line `0 + 1·lambda` on the interval [0, 20], the intersection 10 is
strictly interior and the recursive branch is selected. -/
theorem parametricCut_intersection_rule_witness :
    pcAction 0 20 10 0 0 1 = PCAction.recurse ((10 - 0) / (1 - 0)) :=
  (parametricCut_intersection_rule 0 20 10 0 0 1).2.2
    (by norm_num [dabs, TOL]) (by norm_num [TOL]) (by norm_num [TOL])

/-! ### Contraction of decided nodes -/

theorem contractStep_fold :
    ∀ (l : List PNode) (lowInd highInd : List ℕ)
      (s0 k0 : List ℤ) (u0 : List PNode) (m0 : List ℕ),
      (l.foldl (contractStep lowInd highInd) (s0, k0, u0, m0)).1
          = s0 ++ (l.filter (fun pn =>
              decide (lowInd.getD pn.originalIndex.toNat 0 = 1))).map (·.originalIndex) ∧
      (l.foldl (contractStep lowInd highInd) (s0, k0, u0, m0)).2.1
          = k0 ++ (l.filter (fun pn =>
              decide (¬ lowInd.getD pn.originalIndex.toNat 0 = 1 ∧
                highInd.getD pn.originalIndex.toNat 0 = 0))).map (·.originalIndex) ∧
      ((l.foldl (contractStep lowInd highInd) (s0, k0, u0, m0)).2.2.1).map (·.originalIndex)
          = u0.map (·.originalIndex) ++ (l.filter (fun pn =>
              decide (¬ lowInd.getD pn.originalIndex.toNat 0 = 1 ∧
                ¬ highInd.getD pn.originalIndex.toNat 0 = 0))).map (·.originalIndex) := by
  intro l lowInd highInd
  induction l with
  | nil => intro s0 k0 u0 m0; simp
  | cons pn rest ih =>
      intro s0 k0 u0 m0
      by_cases h1 : lowInd.getD pn.originalIndex.toNat 0 = 1
      · have hd1 : decide (lowInd.getD pn.originalIndex.toNat 0 = 1) = true :=
          decide_eq_true h1
        have hd2 : decide (¬ lowInd.getD pn.originalIndex.toNat 0 = 1 ∧
            highInd.getD pn.originalIndex.toNat 0 = 0) = false :=
          decide_eq_false (by rintro ⟨hx, -⟩; exact hx h1)
        have hd3 : decide (¬ lowInd.getD pn.originalIndex.toNat 0 = 1 ∧
            ¬ highInd.getD pn.originalIndex.toNat 0 = 0) = false :=
          decide_eq_false (by rintro ⟨hx, -⟩; exact hx h1)
        have hstep : contractStep lowInd highInd (s0, k0, u0, m0) pn
            = (s0 ++ [pn.originalIndex], k0, u0, m0 ++ [0]) := by
          unfold contractStep
          rw [if_pos h1]
        rw [List.foldl_cons, hstep]
        obtain ⟨ha, hb, hc⟩ := ih (s0 ++ [pn.originalIndex]) k0 u0 (m0 ++ [0])
        refine ⟨?_, ?_, ?_⟩
        · rw [ha, List.filter_cons, hd1]; simp
        · rw [hb, List.filter_cons, hd2]; simp
        · rw [hc, List.filter_cons, hd3]; simp
      · by_cases h2 : highInd.getD pn.originalIndex.toNat 0 = 0
        · have hd1 : decide (lowInd.getD pn.originalIndex.toNat 0 = 1) = false :=
            decide_eq_false h1
          have hd2 : decide (¬ lowInd.getD pn.originalIndex.toNat 0 = 1 ∧
              highInd.getD pn.originalIndex.toNat 0 = 0) = true :=
            decide_eq_true ⟨h1, h2⟩
          have hd3 : decide (¬ lowInd.getD pn.originalIndex.toNat 0 = 1 ∧
              ¬ highInd.getD pn.originalIndex.toNat 0 = 0) = false :=
            decide_eq_false (by rintro ⟨-, hx⟩; exact hx h2)
          have hstep : contractStep lowInd highInd (s0, k0, u0, m0) pn
              = (s0, k0 ++ [pn.originalIndex], u0, m0 ++ [1]) := by
            unfold contractStep
            rw [if_neg h1, if_pos h2]
          rw [List.foldl_cons, hstep]
          obtain ⟨ha, hb, hc⟩ := ih s0 (k0 ++ [pn.originalIndex]) u0 (m0 ++ [1])
          refine ⟨?_, ?_, ?_⟩
          · rw [ha, List.filter_cons, hd1]; simp
          · rw [hb, List.filter_cons, hd2]; simp
          · rw [hc, List.filter_cons, hd3]; simp
        · have hd1 : decide (lowInd.getD pn.originalIndex.toNat 0 = 1) = false :=
            decide_eq_false h1
          have hd2 : decide (¬ lowInd.getD pn.originalIndex.toNat 0 = 1 ∧
              highInd.getD pn.originalIndex.toNat 0 = 0) = false :=
            decide_eq_false (by rintro ⟨-, hx⟩; exact h2 hx)
          have hd3 : decide (¬ lowInd.getD pn.originalIndex.toNat 0 = 1 ∧
              ¬ highInd.getD pn.originalIndex.toNat 0 = 0) = true :=
            decide_eq_true ⟨h1, h2⟩
          have hstep : contractStep lowInd highInd (s0, k0, u0, m0) pn
              = (s0, k0, u0 ++ [⟨2 + u0.length, pn.originalIndex⟩],
                 m0 ++ [2 + u0.length]) := by
            unfold contractStep
            rw [if_neg h1, if_neg h2]
          rw [List.foldl_cons, hstep]
          obtain ⟨ha, hb, hc⟩ := ih s0 k0 (u0 ++ [⟨2 + u0.length, pn.originalIndex⟩])
            (m0 ++ [2 + u0.length])
          refine ⟨?_, ?_, ?_⟩
          · rw [ha, List.filter_cons, hd1]; simp
          · rw [hb, List.filter_cons, hd2]; simp
          · rw [hc, List.filter_cons, hd3]; simp

/-- Claim C5 (confirmed): when a contracted problem is built from a parent
problem with indicator vectors `lowInd` and `highInd`, every undecided parent
node with original index `j` is moved into the source set iff
`lowInd[j] = 1`, otherwise into the sink set iff `highInd[j] = 0`, and
otherwise carried forward as an undecided internal node (after the two
artificial terminals), each group in parent order. -/
theorem contractProblem_partition :
    ∀ (old : CutProblem) (lam : ℚ) (lowInd highInd : List ℕ) (round : Bool)
      (p : CutProblem),
      contractProblem old lam lowInd highInd round = some p →
      p.sourceSet = old.sourceSet ++ ((old.nodeList.drop 2).filter (fun pn =>
          decide (lowInd.getD pn.originalIndex.toNat 0 = 1))).map (·.originalIndex) ∧
      p.sinkSet = old.sinkSet ++ ((old.nodeList.drop 2).filter (fun pn =>
          decide (¬ lowInd.getD pn.originalIndex.toNat 0 = 1 ∧
            highInd.getD pn.originalIndex.toNat 0 = 0))).map (·.originalIndex) ∧
      (p.nodeList.drop 2).map (·.originalIndex)
          = ((old.nodeList.drop 2).filter (fun pn =>
              decide (¬ lowInd.getD pn.originalIndex.toNat 0 = 1 ∧
                ¬ highInd.getD pn.originalIndex.toNat 0 = 0))).map (·.originalIndex) := by
  intro old lam lowInd highInd round p h
  unfold contractProblem at h
  simp only [] at h
  split at h
  · exact absurd h (by simp)
  · obtain ⟨hsrc, hsnk, hkept⟩ :=
      contractStep_fold (old.nodeList.drop 2) lowInd highInd [] [] [] []
    simp only [Option.some.injEq] at h
    subst h
    refine ⟨?_, ?_, ?_⟩
    · simpa using hsrc
    · simpa using hsnk
    · simpa using hkept

attribute [local semireducible] Rat.add Rat.mul Rat.inv Rat.sub in
/-- Claim C5 (witness): contracting the chain instance's seed problem with
`lowInd = [1,1,0,0]`, `highInd = [1,1,1,0]` moves original node 1 into the
source set and keeps original node 2 undecided. -/
theorem contractProblem_partition_witness :
    contractEx.sourceSet = chainLowP.sourceSet ++
        ((chainLowP.nodeList.drop 2).filter (fun pn =>
          decide (contractExLowInd.getD pn.originalIndex.toNat 0 = 1))).map
          (·.originalIndex) ∧
      contractEx.sinkSet = chainLowP.sinkSet ++
        ((chainLowP.nodeList.drop 2).filter (fun pn =>
          decide (¬ contractExLowInd.getD pn.originalIndex.toNat 0 = 1 ∧
            contractExHighInd.getD pn.originalIndex.toNat 0 = 0))).map
          (·.originalIndex) ∧
      (contractEx.nodeList.drop 2).map (·.originalIndex)
          = ((chainLowP.nodeList.drop 2).filter (fun pn =>
              decide (¬ contractExLowInd.getD pn.originalIndex.toNat 0 = 1 ∧
                ¬ contractExHighInd.getD pn.originalIndex.toNat 0 = 0))).map
              (·.originalIndex) :=
  contractProblem_partition chainLowP (1 / 2) contractExLowInd contractExHighInd false
    contractEx (by decide)

/-! ### Field-preservation lemmas for the problem layer -/

theorem solveProblem_fields :
    ∀ (p : CutProblem) (m : Bool) (ns : ℕ) (g : Globals) (fuel : ℕ)
      (p' : CutProblem) (g' : Globals),
      solveProblem p m ns g fuel = some (p', g') →
      p'.lambdaValue = p.lambdaValue ∧ p'.solved = p.solved := by
  intro p m ns g fuel p' g' h
  unfold solveProblem at h
  simp only [] at h
  split at h
  · simp only [Option.some.injEq, Prod.mk.injEq] at h
    obtain ⟨h1, -⟩ := h
    subst h1
    exact ⟨rfl, rfl⟩
  · split at h
    · exact absurd h (by simp)
    · simp only [Option.some.injEq, Prod.mk.injEq] at h
      obtain ⟨h1, -⟩ := h
      subst h1
      exact ⟨rfl, rfl⟩

theorem solveIfNeeded_fields :
    ∀ (p : CutProblem) (m : Bool) (ns : ℕ) (g : Globals) (fuel : ℕ)
      (pr : CutProblem) (g' : Globals),
      solveIfNeeded p m ns g fuel = some (pr, g') →
      pr.lambdaValue = p.lambdaValue ∧ pr.solved = true := by
  intro p m ns g fuel pr g' h
  unfold solveIfNeeded at h
  split at h
  · next hs =>
      simp only [Option.some.injEq, Prod.mk.injEq] at h
      obtain ⟨h1, -⟩ := h
      subst h1
      exact ⟨rfl, hs⟩
  · split at h
    · exact absurd h (by simp)
    · next p'' g'' hsp =>
        simp only [Option.some.injEq, Prod.mk.injEq] at h
        obtain ⟨h1, -⟩ := h
        subst h1
        exact ⟨(solveProblem_fields p m ns g fuel p'' g'' hsp).1, rfl⟩

theorem contractProblem_fields :
    ∀ (old : CutProblem) (lam : ℚ) (lowInd highInd : List ℕ) (round : Bool)
      (p : CutProblem),
      contractProblem old lam lowInd highInd round = some p →
      p.lambdaValue = lam ∧ p.solved = false := by
  intro old lam lowInd highInd round p h
  unfold contractProblem at h
  simp only [] at h
  split at h
  · exact absurd h (by simp)
  · simp only [Option.some.injEq] at h
    subst h
    exact ⟨rfl, rfl⟩

theorem mkProblem_fields :
    ∀ (ns : ℕ) (superArcs : List SArc) (source sink : ℕ) (lam : ℚ) (round : Bool)
      (p : CutProblem),
      mkProblem ns superArcs source sink lam round = some p →
      p.lambdaValue = lam ∧ p.solved = false := by
  intro ns superArcs source sink lam round p h
  unfold mkProblem at h
  simp only [] at h
  split at h
  · exact absurd h (by simp)
  · simp only [Option.some.injEq] at h
    subst h
    exact ⟨rfl, rfl⟩


/-! ### The parametric recursion: emission structure -/

theorem mem_ite_singleton {c : Prop} [Decidable c] (b term : Breakpoint)
    (h : b ∈ (if c then [term] else [])) : b = term := by
  split at h
  · simpa using h
  · simp at h

theorem pairwise_ite_singleton {c : Prop} [Decidable c] (term : Breakpoint) :
    (if c then [term] else []).Pairwise
      (fun x y : Breakpoint => x.lambdaValue ≤ y.lambdaValue) := by
  split
  · exact List.pairwise_singleton _ _
  · exact List.Pairwise.nil

/-- Structural description of one `parametricCut` call: the number of
terminal emissions performed in its whole recursion subtree is 1 when both
arguments were unsolved at entry and 0 otherwise; in the both-unsolved case
the terminal `(highP.lambdaValue, high indicator)` record is the last
emission; and whenever the interval is ordered, every emission lies inside it
and the emission sequence is nondecreasing in lambda. -/
theorem parametricCut_spec :
    ∀ (fuel : ℕ) (ns : ℕ) (round : Bool) (g : Globals) (lowP highP : CutProblem)
      (res : PCResult),
      parametricCut fuel ns round g lowP highP = some res →
      (res.terminalCount = if lowP.solved = false ∧ highP.solved = false then 1 else 0) ∧
      (lowP.solved = false → highP.solved = false →
        res.emissions.getLast?
          = some ⟨highP.lambdaValue, res.highOut.optimalSourceSetIndicator⟩) ∧
      (lowP.lambdaValue ≤ highP.lambdaValue →
        (∀ b ∈ res.emissions,
          lowP.lambdaValue ≤ b.lambdaValue ∧ b.lambdaValue ≤ highP.lambdaValue) ∧
        res.emissions.Pairwise (fun x y => x.lambdaValue ≤ y.lambdaValue)) := by
  intro fuel
  induction fuel with
  | zero =>
      intro ns round g lowP highP res h
      exact absurd h (by simp [parametricCut])
  | succ fuel ih =>
      intro ns round g lowP highP res h
      rw [parametricCut] at h
      simp only [] at h
      cases hlow : solveIfNeeded lowP false ns g fuel with
      | none => rw [hlow] at h; exact absurd h (by simp)
      | some lowRes =>
        obtain ⟨lowS, g1⟩ := lowRes
        rw [hlow] at h
        cases hhigh : solveIfNeeded highP true ns g1 fuel with
        | none => simp only [hhigh] at h; exact absurd h (by simp)
        | some highRes =>
          obtain ⟨highS, g2⟩ := highRes
          simp only [hhigh] at h
          obtain ⟨hlowLam, hlowSolved⟩ := solveIfNeeded_fields _ _ _ _ _ _ _ hlow
          obtain ⟨hhighLam, hhighSolved⟩ := solveIfNeeded_fields _ _ _ _ _ _ _ hhigh
          -- Characterize the core emissions of each action branch, then
          -- handle the shared terminal append uniformly.
          suffices hs : ∃ ems tc g3,
              res = ⟨lowS, highS,
                ems ++ (if (!lowP.solved && !highP.solved) = true then
                  [⟨highS.lambdaValue, highS.optimalSourceSetIndicator⟩] else []),
                tc + (if (!lowP.solved && !highP.solved) = true then 1 else 0), g3⟩ ∧
              tc = 0 ∧
              (lowP.lambdaValue ≤ highP.lambdaValue →
                (∀ b ∈ ems,
                  lowP.lambdaValue ≤ b.lambdaValue ∧ b.lambdaValue ≤ highP.lambdaValue) ∧
                ems.Pairwise (fun x y => x.lambdaValue ≤ y.lambdaValue)) by
            obtain ⟨ems, tc, g3, hres, htc, hbounds⟩ := hs
            subst hres
            refine ⟨?_, ?_, ?_⟩
            · simp only [htc]
              by_cases h1 : lowP.solved = false
              · by_cases h2 : highP.solved = false
                · simp [h1, h2]
                · simp only [Bool.not_eq_false] at h2
                  simp [h1, h2]
              · simp only [Bool.not_eq_false] at h1
                simp [h1]
            · intro h1 h2
              simp only [h1, h2, Bool.not_false, Bool.and_self]
              simp [List.getLast?_concat, hhighLam]
            · intro hle
              obtain ⟨hmem, hpw⟩ := hbounds hle
              constructor
              · intro b hb
                rcases List.mem_append.mp hb with hb | hb
                · exact hmem b hb
                · have hbe := mem_ite_singleton b _ hb
                  subst hbe
                  simp only [hhighLam]
                  exact ⟨hle, le_refl _⟩
              · refine List.pairwise_append.mpr ⟨hpw, pairwise_ite_singleton _, ?_⟩
                intro a ha b hb
                have hbe := mem_ite_singleton b _ hb
                subst hbe
                simp only [hhighLam] at hmem ⊢
                exact (hmem a ha).2
          -- Now the per-branch analysis.
          cases hact : pcAction lowS.lambdaValue highS.lambdaValue lowS.cutConstant
              lowS.cutMultiplier highS.cutConstant highS.cutMultiplier with
          | recurse lstar =>
              rw [hact] at h
              simp only [] at h
              cases hup : contractProblem lowS lstar lowS.optimalSourceSetIndicator
                  highS.optimalSourceSetIndicator round with
              | none => simp only [hup] at h; exact absurd h (by simp)
              | some upper =>
                rw [hup] at h
                cases hL : parametricCut fuel ns round g2 lowS upper with
                | none => simp only [hL] at h; exact absurd h (by simp)
                | some resL =>
                  simp only [hL] at h
                  cases hR : parametricCut fuel ns round resL.globals upper highS with
                  | none => simp only [hR] at h; exact absurd h (by simp)
                  | some resR =>
                    simp only [hR, Option.some.injEq] at h
                    obtain ⟨hupLam, hupSolved⟩ := contractProblem_fields _ _ _ _ _ _ hup
                    obtain ⟨hLtc, -, hLb⟩ := ih ns round g2 lowS upper resL hL
                    obtain ⟨hRtc, -, hRb⟩ := ih ns round resL.globals upper highS resR hR
                    obtain ⟨-, -, hh1, hl1⟩ :=
                      (pcAction_recurse_iff lowS.lambdaValue highS.lambdaValue
                        lowS.cutConstant lowS.cutMultiplier highS.cutConstant
                        highS.cutMultiplier lstar).mp hact
                    have htp := TOL_pos
                    have hlow_lt : lowS.lambdaValue < lstar := by linarith
                    have hhigh_gt : lstar < highS.lambdaValue := by linarith
                    refine ⟨resL.emissions ++ resR.emissions,
                      resL.terminalCount + resR.terminalCount, resR.globals, h.symm, ?_, ?_⟩
                    · rw [hLtc, hRtc]
                      simp [hlowSolved, hhighSolved]
                    · intro hle
                      have hLB := hLb (by rw [hlowLam, hupLam]; linarith)
                      have hRB := hRb (by rw [hupLam, hhighLam]; linarith)
                      constructor
                      · intro b hb
                        rcases List.mem_append.mp hb with hb | hb
                        · obtain ⟨hb1, hb2⟩ := hLB.1 b hb
                          rw [hlowLam] at hb1
                          rw [hupLam] at hb2
                          refine ⟨hb1, ?_⟩
                          rw [← hhighLam]
                          linarith
                        · obtain ⟨hb1, hb2⟩ := hRB.1 b hb
                          rw [hupLam] at hb1
                          rw [hhighLam] at hb2
                          refine ⟨?_, hb2⟩
                          rw [← hlowLam]
                          linarith
                      · refine List.pairwise_append.mpr ⟨hLB.2, hRB.2, ?_⟩
                        intro a ha b hb
                        have ha2 := (hLB.1 a ha).2
                        have hb1 := (hRB.1 b hb).1
                        rw [hupLam] at ha2 hb1
                        linarith
          | emitHigh =>
              rw [hact] at h
              simp only [Option.some.injEq] at h
              refine ⟨[⟨highS.lambdaValue, lowS.optimalSourceSetIndicator⟩], 0, g2,
                h.symm, rfl, ?_⟩
              intro hle
              constructor
              · intro b hb
                simp only [List.mem_singleton] at hb
                subst hb
                simp only [hhighLam]
                exact ⟨hle, le_refl _⟩
              · exact List.pairwise_singleton _ _
          | emitLow =>
              rw [hact] at h
              simp only [Option.some.injEq] at h
              refine ⟨[⟨lowS.lambdaValue, lowS.optimalSourceSetIndicator⟩], 0, g2,
                h.symm, rfl, ?_⟩
              intro hle
              constructor
              · intro b hb
                simp only [List.mem_singleton] at hb
                subst hb
                simp only [hlowLam]
                exact ⟨le_refl _, hle⟩
              · exact List.pairwise_singleton _ _
          | noAction =>
              rw [hact] at h
              simp only [Option.some.injEq] at h
              exact ⟨[], 0, g2, h.symm, rfl, fun hle => ⟨by simp, List.Pairwise.nil⟩⟩


/-! ### Consequences for the whole solver run -/

theorem removeDuplicateBreakpoints_some_ne_nil :
    ∀ (l bps : List Breakpoint), removeDuplicateBreakpoints l = some bps → bps ≠ [] := by
  intro l bps h
  cases l with
  | nil => exact absurd h (by simp [removeDuplicateBreakpoints])
  | cons c rest =>
      simp only [removeDuplicateBreakpoints, Option.some.injEq] at h
      subst h
      exact dedupScan_ne_nil c rest

theorem removeDuplicateBreakpoints_sublist :
    ∀ (l bps : List Breakpoint), removeDuplicateBreakpoints l = some bps →
      List.Sublist bps l := by
  intro l bps h
  cases l with
  | nil => exact absurd h (by simp [removeDuplicateBreakpoints])
  | cons c rest =>
      simp only [removeDuplicateBreakpoints, Option.some.injEq] at h
      subst h
      exact dedupScan_sublist c rest

theorem removeDuplicateBreakpoints_last :
    ∀ (l bps : List Breakpoint), removeDuplicateBreakpoints l = some bps →
      bps.getLast?.map Breakpoint.lambdaValue = l.getLast?.map Breakpoint.lambdaValue := by
  intro l bps h
  cases l with
  | nil => exact absurd h (by simp [removeDuplicateBreakpoints])
  | cons c rest =>
      simp only [removeDuplicateBreakpoints, Option.some.injEq] at h
      subst h
      exact dedupScan_getLast? rest.length rest le_rfl c

/-- Claim C7 (confirmed): `parametricCut` appends the terminal breakpoint
`(highP.lambdaValue, high indicator)` iff both of its argument problems were
unsolved at entry: the terminal-emission count of a call's whole recursion
subtree is 1 when both arguments are unsolved and 0 otherwise (so in a run of
`hpf_solve`, whose seed problems are built unsolved — third conjunct — the
terminal emission happens exactly once, in the outermost call), and in the
both-unsolved case the terminal record is the last of all emissions, after
everything emitted by the recursive descendants. -/
theorem parametricCut_terminal_emission :
    (∀ (fuel ns : ℕ) (round : Bool) (g : Globals) (lowP highP : CutProblem)
      (res : PCResult),
      parametricCut fuel ns round g lowP highP = some res →
      (res.terminalCount = if lowP.solved = false ∧ highP.solved = false then 1 else 0) ∧
      (lowP.solved = false → highP.solved = false →
        res.emissions ≠ [] ∧
        res.emissions.getLast?
          = some ⟨highP.lambdaValue, res.highOut.optimalSourceSetIndicator⟩)) ∧
    (∀ (ns : ℕ) (superArcs : List SArc) (source sink : ℕ) (lam : ℚ) (round : Bool)
      (p : CutProblem), mkProblem ns superArcs source sink lam round = some p →
      p.solved = false) := by
  constructor
  · intro fuel ns round g lowP highP res h
    obtain ⟨h1, h2, -⟩ := parametricCut_spec fuel ns round g lowP highP res h
    refine ⟨h1, fun ha hb => ⟨?_, h2 ha hb⟩⟩
    intro hnil
    have hl := h2 ha hb
    rw [hnil] at hl
    simp at hl
  · intro ns sa s t lam r p h
    exact (mkProblem_fields ns sa s t lam r p h).2

attribute [local semireducible] Rat.add Rat.mul Rat.inv Rat.sub in
/-- Claim C7 (witness): on the chain instance the recursion performs exactly
one terminal emission and it is the last breakpoint of the run. -/
theorem parametricCut_terminal_emission_witness :
    chainRes.terminalCount = 1 ∧
    chainRes.emissions.getLast?
      = some ⟨chainHighP.lambdaValue, chainRes.highOut.optimalSourceSetIndicator⟩ := by
  have h1 := parametricCut_terminal_emission.1 60 4 false resetGlobals chainLowP chainHighP
    chainRes (by decide)
  refine ⟨?_, (h1.2 (by decide) (by decide)).2⟩
  rw [h1.1]
  decide

/-- Claim C10 (confirmed): a call of `parametricCut` on two unsolved problems
(as the outermost call of `hpf_solve` is) always appends at least one
breakpoint — the base-level terminal — so the duplicate pass receives a
nonempty list and its unguarded read of the list head's successor cannot
dereference a null head, and every completed `hpf_solve` run reports at least
one breakpoint. -/
theorem hpf_solve_at_least_one_breakpoint :
    (∀ (fuel ns : ℕ) (round : Bool) (g : Globals) (lowP highP : CutProblem)
      (res : PCResult),
      parametricCut fuel ns round g lowP highP = some res →
      lowP.solved = false → highP.solved = false →
      res.emissions ≠ [] ∧ removeDuplicateBreakpoints res.emissions ≠ none) ∧
    (∀ (nn na s t : ℕ) (arcMat : List SArc) (lamLow lamHigh : ℚ) (round : Bool)
      (fuel : ℕ) (out : HPFOutput),
      hpf_solve nn na s t arcMat lamLow lamHigh round fuel = some out →
      1 ≤ out.numBreakpoints) := by
  constructor
  · intro fuel ns round g lowP highP res h ha hb
    obtain ⟨-, h2, -⟩ := parametricCut_spec fuel ns round g lowP highP res h
    have hl := h2 ha hb
    have hne : res.emissions ≠ [] := by
      intro hnil
      rw [hnil] at hl
      simp at hl
    refine ⟨hne, ?_⟩
    cases hemm : res.emissions with
    | nil => exact absurd hemm hne
    | cons c rest => simp [removeDuplicateBreakpoints]
  · intro nn na s t arcMat lamLow lamHigh round fuel out h
    unfold hpf_solve at h
    simp only [] at h
    split at h
    · exact absurd h (by simp)
    · split at h
      · split at h
        · exact absurd h (by simp)
        · simp only [Option.some.injEq] at h
          subst h
          simp [prepareOutput]
      · split at h
        · exact absurd h (by simp)
        · split at h
          · exact absurd h (by simp)
          · split at h
            · exact absurd h (by simp)
            · next res bps hdd =>
                simp only [Option.some.injEq] at h
                subst h
                have hne := removeDuplicateBreakpoints_some_ne_nil _ _ hdd
                simp only [prepareOutput]
                cases bps with
                | nil => exact absurd rfl hne
                | cons c rest => simp

attribute [local semireducible] Rat.add Rat.mul Rat.inv Rat.sub in
/-- Claim C10 (witness): the chain-instance run returns one breakpoint, and
its recursion's emission list is nonempty and passes the duplicate pass. -/
theorem hpf_solve_at_least_one_breakpoint_witness :
    (chainRes.emissions ≠ [] ∧ removeDuplicateBreakpoints chainRes.emissions ≠ none) ∧
      1 ≤ chainOut.numBreakpoints :=
  ⟨hpf_solve_at_least_one_breakpoint.1 60 4 false resetGlobals chainLowP chainHighP
      chainRes (by decide) (by decide) (by decide),
    hpf_solve_at_least_one_breakpoint.2 4 3 0 3 chainArcs 0 1 false 60 chainOut (by decide)⟩

/-- Claim C1 (amended): the lambda values returned by `hpf_solve` lie in
`[lamLow, lamHigh]` and appear in nondecreasing order, and the final value is
always `lamHigh` — the right endpoint is emitted as the terminal breakpoint
whether or not the optimal source set changes there, so the returned vector
is not in general exactly the set of change values. -/
theorem hpf_solve_breakpoint_order :
    ∀ (nn na s t : ℕ) (arcMat : List SArc) (lamLow lamHigh : ℚ) (round : Bool)
      (fuel : ℕ) (out : HPFOutput),
      hpf_solve nn na s t arcMat lamLow lamHigh round fuel = some out →
      lamLow ≤ lamHigh →
      out.breakpoints ≠ [] ∧
      out.breakpoints.Pairwise (· ≤ ·) ∧
      out.breakpoints.getLast? = some lamHigh ∧
      ∀ x ∈ out.breakpoints, lamLow ≤ x ∧ x ≤ lamHigh := by
  intro nn na s t arcMat lamLow lamHigh round fuel out h hle
  unfold hpf_solve at h
  simp only [] at h
  split at h
  · exact absurd h (by simp)
  · next lowP hmk =>
      obtain ⟨hmkLam, hmkSolved⟩ := mkProblem_fields _ _ _ _ _ _ _ hmk
      split at h
      · next heq =>
          split at h
          · exact absurd h (by simp)
          · next lowS g1 hsp =>
              simp only [Option.some.injEq] at h
              subst h
              have hlam : lowS.lambdaValue = lamLow := by
                rw [(solveProblem_fields _ _ _ _ _ _ _ hsp).1, hmkLam]
              simp only [prepareOutput, List.map_cons, List.map_nil]
              refine ⟨by simp, by simp, ?_, ?_⟩
              · simp [hlam, heq]
              · intro x hx
                simp only [List.mem_singleton] at hx
                subst hx
                rw [hlam]
                exact ⟨le_refl _, hle⟩
      · split at h
        · exact absurd h (by simp)
        · next highP hmk2 =>
            obtain ⟨hmk2Lam, hmk2Solved⟩ := mkProblem_fields _ _ _ _ _ _ _ hmk2
            split at h
            · exact absurd h (by simp)
            · next res hpc =>
                split at h
                · exact absurd h (by simp)
                · next bps hdd =>
                    simp only [Option.some.injEq] at h
                    subst h
                    obtain ⟨-, hterm, hbounds⟩ :=
                      parametricCut_spec fuel nn round resetGlobals lowP highP res hpc
                    have hlast := hterm hmkSolved hmk2Solved
                    obtain ⟨hmem, hpw⟩ := hbounds (by rw [hmkLam, hmk2Lam]; exact hle)
                    have hsub := removeDuplicateBreakpoints_sublist _ _ hdd
                    have hne := removeDuplicateBreakpoints_some_ne_nil _ _ hdd
                    simp only [prepareOutput]
                    refine ⟨by simpa using hne, ?_, ?_, ?_⟩
                    · exact List.pairwise_map.mpr (hpw.sublist hsub)
                    · rw [List.getLast?_map,
                        removeDuplicateBreakpoints_last _ _ hdd, hlast]
                      simp [hmk2Lam]
                    · intro x hx
                      obtain ⟨b, hb, hbx⟩ := List.mem_map.mp hx
                      obtain ⟨hb1, hb2⟩ := hmem b (hsub.subset hb)
                      rw [hmkLam] at hb1
                      rw [hmk2Lam] at hb2
                      subst hbx
                      exact ⟨hb1, hb2⟩

attribute [local semireducible] Rat.add Rat.mul Rat.inv Rat.sub in
/-- Claim C1 (witness for the amended theorem), on the two-node instance over
the interval [0, 1]. -/
theorem hpf_solve_breakpoint_order_witness :
    instAOut.breakpoints ≠ [] ∧
      instAOut.breakpoints.Pairwise (· ≤ ·) ∧
      instAOut.breakpoints.getLast? = some 1 ∧
      ∀ x ∈ instAOut.breakpoints, 0 ≤ x ∧ x ≤ 1 :=
  hpf_solve_breakpoint_order 2 1 0 1 instAArcs 0 1 false 30 instAOut
    (by decide) (by norm_num)

theorem instA_opt_const : ∀ lam : ℚ,
    specOptSourceSets 2 0 1 (instAArcs.take 1) lam = [[1, 0]] := by
  intro lam
  have hst : stIndicators 2 0 1 = [[1, 0]] := by decide
  have htake : instAArcs.take 1 = instAArcs := rfl
  unfold specOptSourceSets
  rw [htake, hst]
  simp [le_refl]

attribute [local semireducible] Rat.add Rat.mul Rat.inv Rat.sub in
/-- Claim C1 (counterexample): on the two-node instance with one constant-
capacity arc over [0, 1] the optimal source set is the same at every lambda
(there is a single admissible s-t partition), so no lambda in the interval is
a value at which the optimal source set changes; yet `hpf_solve` returns the
breakpoint vector [1].  Hence the returned lambda values are not exactly the
change values. -/
theorem hpf_emits_non_change_value : ¬ hpfReturnsOnlyChangeValues := by
  intro hcl
  obtain ⟨l1, l2, -, -, -, -, hne⟩ :=
    hcl 2 1 0 1 instAArcs 0 1 false 30 instAOut 1 (by decide) (by decide)
  exact hne ((instA_opt_const l1).trans (instA_opt_const l2).symm)


/-! ### Engine-state accessor lemmas -/

theorem getNode_setNode_ne (S : EngState) (i j : ℕ) (n : ENode) (h : i ≠ j) :
    getNode (setNode S j n) i = getNode S i := by
  unfold getNode setNode
  exact getD_set_ne _ _ _ _ _ h

theorem getNode_setNode_self (S : EngState) (j : ℕ) (n : ENode)
    (h : j < S.nodes.length) : getNode (setNode S j n) j = n := by
  unfold getNode setNode
  exact getD_set_self _ _ _ _ h

theorem getNode_modifyNode_ne (S : EngState) (i j : ℕ) (f : ENode → ENode) (h : i ≠ j) :
    getNode (modifyNode S j f) i = getNode S i :=
  getNode_setNode_ne S i j _ h

theorem getNode_modifyNode_self (S : EngState) (j : ℕ) (f : ENode → ENode)
    (h : j < S.nodes.length) : getNode (modifyNode S j f) j = f (getNode S j) :=
  getNode_setNode_self S j _ h

theorem getNode_modifyNode_proj {β : Type} (proj : ENode → β) (S : EngState) (j : ℕ)
    (f : ENode → ENode) (hf : ∀ n, proj (f n) = proj n) (i : ℕ) :
    proj (getNode (modifyNode S j f) i) = proj (getNode S i) := by
  by_cases hij : i = j
  · subst hij
    by_cases hj : i < S.nodes.length
    · rw [getNode_modifyNode_self S i f hj, hf]
    · unfold modifyNode setNode getNode
      rw [List.set_eq_of_length_le (not_lt.mp hj)]
  · rw [getNode_modifyNode_ne S i j f hij]

theorem modifyNode_len (S : EngState) (j : ℕ) (f : ENode → ENode) :
    (modifyNode S j f).nodes.length = S.nodes.length := by
  simp [modifyNode, setNode]

theorem getBucket_setBucket_ne (S : EngState) (i j : ℕ) (b : List ℕ) (h : i ≠ j) :
    getBucket (setBucket S j b) i = getBucket S i := by
  unfold getBucket setBucket
  exact getD_set_ne _ _ _ _ _ h

theorem getBucket_setBucket_self (S : EngState) (j : ℕ) (b : List ℕ)
    (h : j < S.buckets.length) : getBucket (setBucket S j b) j = b := by
  unfold getBucket setBucket
  exact getD_set_self _ _ _ _ h

theorem mem_getBucket_addToStrongBucket (S : EngState) (j v i x : ℕ)
    (h : x ∈ getBucket S i) : x ∈ getBucket (addToStrongBucket S j v) i := by
  unfold addToStrongBucket
  by_cases hij : i = j
  · subst hij
    by_cases hj : i < S.buckets.length
    · rw [getBucket_setBucket_self _ _ _ hj]
      exact List.mem_append_left _ h
    · unfold setBucket getBucket
      rw [List.set_eq_of_length_le (not_lt.mp hj)]
      exact h
  · rw [getBucket_setBucket_ne _ _ _ _ hij]
    exact h

theorem setBucket_len (S : EngState) (j : ℕ) (b : List ℕ) :
    (setBucket S j b).buckets.length = S.buckets.length := by
  simp [setBucket]

theorem getLC_setLC_ne (S : EngState) (i j v : ℕ) (h : i ≠ j) :
    getLC (setLC S j v) i = getLC S i := by
  unfold getLC setLC
  exact getD_set_ne _ _ _ _ _ h

theorem getLC_setLC_self (S : EngState) (j v : ℕ) (h : j < S.labelCount.length) :
    getLC (setLC S j v) j = v := by
  unfold getLC setLC
  exact getD_set_self _ _ _ _ h

/-! ### Saturation phases of simpleInitialization -/

theorem satSourceArc_frame : PreservesFrame satSourceArc := by
  intro S i
  unfold satSourceArc
  simp only []
  refine ⟨rfl, rfl, rfl, rfl, rfl, rfl, modifyNode_len _ _ _, ?_⟩
  intro k
  apply getNode_modifyNode_proj ENode.label
  intro n
  rfl

theorem satSinkArc_frame : PreservesFrame satSinkArc := by
  intro S i
  unfold satSinkArc
  simp only []
  refine ⟨rfl, rfl, rfl, rfl, rfl, rfl, modifyNode_len _ _ _, ?_⟩
  intro k
  apply getNode_modifyNode_proj ENode.label
  intro n
  rfl

theorem foldl_frame (step : EngState → ℕ → EngState) (hstep : PreservesFrame step) :
    ∀ (l : List ℕ) (S : EngState),
      (l.foldl step S).buckets = S.buckets ∧ (l.foldl step S).labelCount = S.labelCount ∧
      (l.foldl step S).hsl = S.hsl ∧ (l.foldl step S).numNodes = S.numNodes ∧
      (l.foldl step S).source = S.source ∧ (l.foldl step S).sink = S.sink ∧
      (l.foldl step S).nodes.length = S.nodes.length ∧
      (∀ k, (getNode (l.foldl step S) k).label = (getNode S k).label) := by
  intro l
  induction l with
  | nil => intro S; exact ⟨rfl, rfl, rfl, rfl, rfl, rfl, rfl, fun k => rfl⟩
  | cons j rest ih =>
      intro S
      obtain ⟨h1, h2, h3, h4, h5, h6, h7, h8⟩ := hstep S j
      obtain ⟨g1, g2, g3, g4, g5, g6, g7, g8⟩ := ih (step S j)
      rw [List.foldl_cons]
      exact ⟨g1.trans h1, g2.trans h2, g3.trans h3, g4.trans h4, g5.trans h5,
        g6.trans h6, g7.trans h7, fun k => (g8 k).trans (h8 k)⟩

/-! ### The enqueue phase of simpleInitialization -/

theorem getNode_addToStrongBucket (S : EngState) (l i k : ℕ) :
    getNode (addToStrongBucket S l i) k = getNode S k := rfl

theorem nodes_addToStrongBucket (S : EngState) (l i : ℕ) :
    (addToStrongBucket S l i).nodes = S.nodes := rfl

theorem nodes_incLC (S : EngState) (l : ℕ) : (incLC S l).nodes = S.nodes := rfl

theorem buckets_incLC (S : EngState) (l : ℕ) : (incLC S l).buckets = S.buckets := rfl

theorem buckets_len_addToStrongBucket (S : EngState) (l i : ℕ) :
    (addToStrongBucket S l i).buckets.length = S.buckets.length := setBucket_len _ _ _

theorem labelCount_addToStrongBucket (S : EngState) (l i : ℕ) :
    (addToStrongBucket S l i).labelCount = S.labelCount := rfl

theorem labelCount_len_incLC (S : EngState) (l : ℕ) :
    (incLC S l).labelCount.length = S.labelCount.length := by
  simp [incLC, setLC]

theorem getNode_incLC (S : EngState) (l k : ℕ) :
    getNode (incLC S l) k = getNode S k := rfl

theorem enqueueStep_basic (S : EngState) (j : ℕ) :
    (enqueueStep S j).nodes.length = S.nodes.length ∧
    (enqueueStep S j).buckets.length = S.buckets.length ∧
    (enqueueStep S j).labelCount.length = S.labelCount.length ∧
    (enqueueStep S j).hsl = S.hsl ∧ (enqueueStep S j).numNodes = S.numNodes ∧
    (enqueueStep S j).source = S.source ∧ (enqueueStep S j).sink = S.sink ∧
    (∀ k, (getNode (enqueueStep S j) k).excess = (getNode S k).excess) ∧
    (∀ k i, k ∈ getBucket S i → k ∈ getBucket (enqueueStep S j) i) ∧
    (∀ k, k ≠ j → getNode (enqueueStep S j) k = getNode S k) := by
  unfold enqueueStep
  split
  · simp only []
    refine ⟨?_, ?_, ?_, rfl, rfl, rfl, rfl, ?_, ?_, ?_⟩
    · rw [nodes_addToStrongBucket, nodes_incLC]
      exact modifyNode_len _ _ _
    · rw [buckets_len_addToStrongBucket, buckets_incLC]
      rfl
    · rw [labelCount_addToStrongBucket, labelCount_len_incLC]
      rfl
    · intro k
      rw [getNode_addToStrongBucket, getNode_incLC]
      apply getNode_modifyNode_proj ENode.excess
      intro n
      rfl
    · intro k i hk
      exact mem_getBucket_addToStrongBucket _ _ _ _ _ hk
    · intro k hk
      rw [getNode_addToStrongBucket, getNode_incLC]
      exact getNode_modifyNode_ne _ _ _ _ hk
  · exact ⟨rfl, rfl, rfl, rfl, rfl, rfl, rfl, fun k => rfl, fun k i hk => hk, fun k _ => rfl⟩

theorem enqueueFold_basic :
    ∀ (is : List ℕ) (S : EngState),
      ((is.foldl enqueueStep S).nodes.length = S.nodes.length) ∧
      ((is.foldl enqueueStep S).buckets.length = S.buckets.length) ∧
      ((is.foldl enqueueStep S).labelCount.length = S.labelCount.length) ∧
      ((is.foldl enqueueStep S).hsl = S.hsl) ∧
      ((is.foldl enqueueStep S).numNodes = S.numNodes) ∧
      ((is.foldl enqueueStep S).source = S.source) ∧
      ((is.foldl enqueueStep S).sink = S.sink) ∧
      (∀ k, (getNode (is.foldl enqueueStep S) k).excess = (getNode S k).excess) := by
  intro is
  induction is with
  | nil => intro S; exact ⟨rfl, rfl, rfl, rfl, rfl, rfl, rfl, fun k => rfl⟩
  | cons j rest ih =>
      intro S
      obtain ⟨h1, h2, h3, h4, h5, h6, h7, h8, -, -⟩ := enqueueStep_basic S j
      obtain ⟨g1, g2, g3, g4, g5, g6, g7, g8⟩ := ih (enqueueStep S j)
      rw [List.foldl_cons]
      exact ⟨g1.trans h1, g2.trans h2, g3.trans h3, g4.trans h4, g5.trans h5,
        g6.trans h6, g7.trans h7, fun k => (g8 k).trans (h8 k)⟩

theorem enqueueFold_stable :
    ∀ (is : List ℕ) (S : EngState) (i : ℕ),
      (getNode S i).label = 1 → i ∈ getBucket S 1 →
      (getNode (is.foldl enqueueStep S) i).label = 1 ∧
        i ∈ getBucket (is.foldl enqueueStep S) 1 := by
  intro is
  induction is with
  | nil => intro S i h1 h2; exact ⟨h1, h2⟩
  | cons j rest ih =>
      intro S i h1 h2
      rw [List.foldl_cons]
      obtain ⟨-, -, -, -, -, -, -, -, hmono, hne⟩ := enqueueStep_basic S j
      refine ih (enqueueStep S j) i ?_ (hmono i 1 h2)
      by_cases hij : i = j
      · subst hij
        unfold enqueueStep
        split
        · show (getNode (addToStrongBucket _ 1 i) i).label = 1
          have : (getNode (addToStrongBucket (incLC (modifyNode S i
              (fun n => { n with label := 1 })) 1) 1 i) i).label
              = (getNode (modifyNode S i (fun n => { n with label := 1 })) i).label := rfl
          rw [this]
          by_cases hr : i < S.nodes.length
          · rw [getNode_modifyNode_self _ _ _ hr]
          · unfold modifyNode setNode getNode
            rw [List.set_eq_of_length_le (not_lt.mp hr)]
            exact h1
        · exact h1
      · rw [hne i hij]
        exact h1

theorem enqueueFold_establish :
    ∀ (is : List ℕ) (S : EngState) (i : ℕ),
      i ∈ is → 0 < (getNode S i).excess → i < S.nodes.length → 1 < S.buckets.length →
      (getNode (is.foldl enqueueStep S) i).label = 1 ∧
        i ∈ getBucket (is.foldl enqueueStep S) 1 := by
  intro is
  induction is with
  | nil => intro S i hmem; exact absurd hmem (by simp)
  | cons j rest ih =>
      intro S i hmem hpos hlen hbk
      rw [List.foldl_cons]
      rcases List.mem_cons.mp hmem with hij | hmem2
      · subst hij
        have hstep : enqueueStep S i
            = addToStrongBucket (incLC (modifyNode S i
                (fun n => { n with label := 1 })) 1) 1 i := by
          unfold enqueueStep
          rw [if_pos hpos]
        refine enqueueFold_stable rest (enqueueStep S i) i ?_ ?_
        · rw [hstep]
          show (getNode (modifyNode S i (fun n => { n with label := 1 })) i).label = 1
          rw [getNode_modifyNode_self _ _ _ hlen]
        · rw [hstep]
          have hbk2 : 1 < (incLC (modifyNode S i
              (fun n => { n with label := 1 })) 1).buckets.length := hbk
          unfold addToStrongBucket
          rw [getBucket_setBucket_self _ _ _ hbk2]
          exact List.mem_append_right _ (by simp)
      · obtain ⟨h1, h2, -, -, -, -, -, h8, -, -⟩ := enqueueStep_basic S j
        exact ih (enqueueStep S j) i hmem2 (by rw [h8 i]; exact hpos)
          (by rw [h1]; exact hlen) (by rw [h2]; exact hbk)

/-! ### The staged postcondition of simpleInitialization -/

theorem getNode_setLC (S : EngState) (l v k : ℕ) : getNode (setLC S l v) k = getNode S k := rfl

theorem getBucket_setLC (S : EngState) (l v i : ℕ) :
    getBucket (setLC S l v) i = getBucket S i := rfl

theorem getBucket_modifyNode (S : EngState) (j : ℕ) (f : ENode → ENode) (i : ℕ) :
    getBucket (modifyNode S j f) i = getBucket S i := rfl

theorem simpleInitialization_eq (S : EngState) :
    simpleInitialization S = setLC (siS7 S) 0 (S.numNodes - 2 - getLC (siS7 S) 1) := rfl

theorem siS2_frame (S : EngState) :
    (siS2 S).buckets = S.buckets ∧ (siS2 S).labelCount = S.labelCount ∧
    (siS2 S).hsl = S.hsl ∧ (siS2 S).nodes.length = S.nodes.length := by
  obtain ⟨b1, l1, h1, -, -, -, n1, -⟩ :=
    foldl_frame satSourceArc satSourceArc_frame (getNode S S.source).outOfTree S
  obtain ⟨b2, l2, h2, -, -, -, n2, -⟩ :=
    foldl_frame satSinkArc satSinkArc_frame (getNode (siS1 S) S.sink).outOfTree (siS1 S)
  exact ⟨b2.trans b1, l2.trans l1, h2.trans h1, n2.trans n1⟩

theorem siS4_frame (S : EngState) :
    (siS4 S).buckets = S.buckets ∧ (siS4 S).labelCount = S.labelCount ∧
    (siS4 S).hsl = S.hsl ∧ (siS4 S).nodes.length = S.nodes.length := by
  obtain ⟨b, l, h, n⟩ := siS2_frame S
  refine ⟨b, l, h, ?_⟩
  unfold siS4 siS3
  rw [modifyNode_len, modifyNode_len]
  exact n

theorem siS4_excess_source (S : EngState) (hsrc : S.source < S.nodes.length)
    (hne : S.source ≠ S.sink) : (getNode (siS4 S) S.source).excess = 0 := by
  unfold siS4
  rw [getNode_modifyNode_ne _ _ _ _ hne]
  unfold siS3
  have hlt : S.source < (siS2 S).nodes.length := by
    rw [(siS2_frame S).2.2.2]
    exact hsrc
  rw [getNode_modifyNode_self _ _ _ hlt]

theorem siS4_excess_sink (S : EngState) (hsink : S.sink < S.nodes.length) :
    (getNode (siS4 S) S.sink).excess = 0 := by
  unfold siS4
  have hlt : S.sink < (siS3 S).nodes.length := by
    unfold siS3
    rw [modifyNode_len, (siS2_frame S).2.2.2]
    exact hsink
  rw [getNode_modifyNode_self _ _ _ hlt]

theorem siS5_basic (S : EngState) :
    (siS5 S).nodes.length = (siS4 S).nodes.length ∧
    (siS5 S).buckets.length = (siS4 S).buckets.length ∧
    (siS5 S).labelCount.length = (siS4 S).labelCount.length ∧
    (siS5 S).hsl = (siS4 S).hsl ∧
    (∀ k, (getNode (siS5 S) k).excess = (getNode (siS4 S) k).excess) := by
  obtain ⟨e1, e2, e3, e4, -, -, -, e8⟩ := enqueueFold_basic (List.range S.numNodes) (siS4 S)
  exact ⟨e1, e2, e3, e4, e8⟩

theorem siS5_establish (S : EngState) (i : ℕ) (hmem : i < S.numNodes)
    (hpos : 0 < (getNode (siS4 S) i).excess) (hlen : i < (siS4 S).nodes.length)
    (hbkl : 1 < (siS4 S).buckets.length) :
    (getNode (siS5 S) i).label = 1 ∧ i ∈ getBucket (siS5 S) 1 :=
  enqueueFold_establish (List.range S.numNodes) (siS4 S) i
    (List.mem_range.mpr hmem) hpos hlen hbkl

/-- Claim C8 (amended): after `simpleInitialization` runs on a well-formed
engine state — terminals in range and distinct, `numNodes` equal to the arena
size, `labelCount` and `strongRoots` arrays of that size — every node with
positive excess has label 1 and sits in the strong-root bucket of label 1,
the source has label `numNodes`, the sink has label 0, and
`labelCount[0] = numNodes - 2 - labelCount[1]`.  But `highestStrongLabel` is
not set to 1: `simpleInitialization` leaves it exactly as it was on entry, so
it is 1 only for the first solve after `reset_globals`; later solves of the
same run can enter with a larger value. -/
theorem simpleInitialization_post (S : EngState)
    (hsrc : S.source < S.nodes.length) (hsink : S.sink < S.nodes.length)
    (hne : S.source ≠ S.sink) (hnum : S.numNodes = S.nodes.length)
    (hlc : S.labelCount.length = S.numNodes) (hbk : S.buckets.length = S.numNodes) :
    (∀ i, i < S.numNodes → 0 < (getNode (simpleInitialization S) i).excess →
      (getNode (simpleInitialization S) i).label = 1 ∧
        i ∈ getBucket (simpleInitialization S) 1) ∧
    (getNode (simpleInitialization S) S.source).label = S.numNodes ∧
    (getNode (simpleInitialization S) S.sink).label = 0 ∧
    getLC (simpleInitialization S) 0
      = S.numNodes - 2 - getLC (simpleInitialization S) 1 ∧
    (simpleInitialization S).hsl = S.hsl := by
  have h2le : 2 ≤ S.nodes.length := by omega
  obtain ⟨hb4, hl4, hh4, hn4⟩ := siS4_frame S
  rw [simpleInitialization_eq S]
  refine ⟨?_, ?_, ?_, ?_, ?_⟩
  · intro i hi hex
    rw [getNode_setLC] at hex
    have hex5 : 0 < (getNode (siS5 S) i).excess := by
      have h7 : (getNode (siS7 S) i).excess = (getNode (siS6 S) i).excess := by
        unfold siS7
        apply getNode_modifyNode_proj ENode.excess
        intro n
        rfl
      have h6 : (getNode (siS6 S) i).excess = (getNode (siS5 S) i).excess := by
        unfold siS6
        apply getNode_modifyNode_proj ENode.excess
        intro n
        rfl
      rw [h7, h6] at hex
      exact hex
    have hex4 : 0 < (getNode (siS4 S) i).excess := by
      rw [← (siS5_basic S).2.2.2.2 i]
      exact hex5
    have hisrc : i ≠ S.source := by
      intro h
      rw [h, siS4_excess_source S hsrc hne] at hex4
      exact lt_irrefl 0 hex4
    have hisink : i ≠ S.sink := by
      intro h
      rw [h, siS4_excess_sink S hsink] at hex4
      exact lt_irrefl 0 hex4
    obtain ⟨hlab, hbkt⟩ := siS5_establish S i hi hex4
      (by rw [hn4]; omega) (by rw [hb4, hbk]; omega)
    constructor
    · rw [getNode_setLC]
      unfold siS7
      rw [getNode_modifyNode_ne _ _ _ _ hisink]
      unfold siS6
      rw [getNode_modifyNode_ne _ _ _ _ hisrc]
      exact hlab
    · rw [getBucket_setLC]
      have hbb : getBucket (siS7 S) 1 = getBucket (siS5 S) 1 := rfl
      rw [hbb]
      exact hbkt
  · rw [getNode_setLC]
    unfold siS7
    rw [getNode_modifyNode_ne _ _ _ _ hne]
    unfold siS6
    have hlen5 : S.source < (siS5 S).nodes.length := by
      rw [(siS5_basic S).1, hn4]
      exact hsrc
    rw [getNode_modifyNode_self _ _ _ hlen5]
  · rw [getNode_setLC]
    unfold siS7
    have hlen6 : S.sink < (siS6 S).nodes.length := by
      unfold siS6
      rw [modifyNode_len, (siS5_basic S).1, hn4]
      exact hsink
    rw [getNode_modifyNode_self _ _ _ hlen6]
  · have hlen7 : 0 < (siS7 S).labelCount.length := by
      have h75 : (siS7 S).labelCount.length = (siS5 S).labelCount.length := rfl
      rw [h75, (siS5_basic S).2.2.1]
      have hl4' : (siS4 S).labelCount.length = S.labelCount.length := by rw [hl4]
      rw [hl4', hlc]
      omega
    rw [getLC_setLC_self _ _ _ hlen7, getLC_setLC_ne _ _ _ _ (by decide : (1 : ℕ) ≠ 0)]
  · have hf : (setLC (siS7 S) 0 (S.numNodes - 2 - getLC (siS7 S) 1)).hsl
        = (siS5 S).hsl := rfl
    rw [hf, (siS5_basic S).2.2.2.1, hh4]

attribute [local semireducible] Rat.add Rat.mul Rat.inv Rat.sub in
/-- Claim C8 (witness): the postcondition instantiated on the engine state
entering the second solve of the chain-instance run. -/
theorem simpleInitialization_post_witness :
    (getNode (simpleInitialization chainSecondEntry) chainSecondEntry.source).label
        = chainSecondEntry.numNodes ∧
    (getNode (simpleInitialization chainSecondEntry) chainSecondEntry.sink).label = 0 ∧
    getLC (simpleInitialization chainSecondEntry) 0
      = chainSecondEntry.numNodes - 2 - getLC (simpleInitialization chainSecondEntry) 1 ∧
    (simpleInitialization chainSecondEntry).hsl = chainSecondEntry.hsl := by
  obtain ⟨-, h2, h3, h4, h5⟩ := simpleInitialization_post chainSecondEntry
    (by decide) (by decide) (by decide) (by decide) (by decide) (by decide)
  exact ⟨h2, h3, h4, h5⟩

attribute [local semireducible] Rat.add Rat.mul Rat.inv Rat.sub in
/-- Claim C8 (counterexample): the chain-instance run completes, its first
solve leaves `highestStrongLabel = 2` in the carried-over globals, and
`simpleInitialization` for the second solve of the run leaves
`highestStrongLabel` at 2 — not 1 as the claimed postcondition requires. -/
theorem simpleInitialization_hsl_counterexample :
    (hpf_solve 4 3 0 3 chainArcs 0 1 false 60).isSome = true ∧
    (solveIfNeeded chainLowP false 4 resetGlobals 59).map (fun r => r.2) = some chainG1 ∧
    chainG1.hsl = 2 ∧
    (simpleInitialization chainSecondEntry).hsl = 2 := by
  refine ⟨by decide, by decide, by decide, by decide⟩

end HPF
